import Mathlib

/-!
A verification development for the coinmaster repository.

The JavaScript sources (script.js, scripts/generate-price-db.mjs and the
unnamed variants) are shallowly embedded: JavaScript numbers are modelled by
the type JSNum (NaN, +Infinity, -Infinity, or a finite rational value), and
the transcendental library functions Math.log, Math.exp, Math.sqrt and
Math.pow on positive finite arguments are abstracted by a structure FloatOps
carrying arbitrary rational-valued functions together with the mathematical
facts the programs rely on (log 1 = 0, exp is positive, pow at exponent 0
is 1).  All special-value behaviour (NaN propagation, infinities, signs,
zero denominators) is modelled explicitly, following the ECMAScript
definitions of the operators; the finite-precision rounding of IEEE doubles
is the one aspect deliberately idealised by exact rational arithmetic.

Rational arithmetic is performed through mkRat-based wrappers (qadd, qsub,
qmul, qdiv, ...) because the library operations on Rat are irreducible and
would block kernel evaluation of concrete witnesses; bridge lemmas identify
the wrappers with the ordinary field operations.

Calendar dates are embedded as Option Int: some d is a well-formed ISO date
string denoting day number d since 1970-01-01 (so its Date.parse value is
86400000 * d milliseconds), and none is a malformed date string (its
Date.parse value is NaN).  Chronological order of well-formed ISO date
strings coincides with the order of their day numbers.
-/

/-! ## Kernel-computable rational arithmetic -/

/-- Addition on ℚ through mkRat, so that the kernel can evaluate it. -/
def qadd (a b : ℚ) : ℚ := mkRat (a.num * b.den + b.num * a.den) (a.den * b.den)

/-- Negation on ℚ through mkRat. -/
def qneg (a : ℚ) : ℚ := mkRat (-a.num) a.den

/-- Subtraction on ℚ through mkRat. -/
def qsub (a b : ℚ) : ℚ := mkRat (a.num * b.den - b.num * a.den) (a.den * b.den)

/-- Multiplication on ℚ through mkRat. -/
def qmul (a b : ℚ) : ℚ := mkRat (a.num * b.num) (a.den * b.den)

/-- Reciprocal on ℚ through Rat.divInt (inverse of 0 is 0, as in Lean). -/
def qinv (a : ℚ) : ℚ := Rat.divInt (a.den : ℤ) a.num

/-- Division on ℚ through mkRat wrappers. -/
def qdiv (a b : ℚ) : ℚ := qmul a (qinv b)

/-- Natural-number power on ℚ through qmul. -/
def qpowNat (a : ℚ) : ℕ → ℚ
  | 0 => 1
  | n + 1 => qmul (qpowNat a n) a

theorem qadd_eq (a b : ℚ) : qadd a b = a + b := (Rat.add_def' a b).symm

theorem qneg_eq (a : ℚ) : qneg a = -a := by
  rw [qneg, ← Rat.neg_mkRat, Rat.mkRat_self]

theorem qsub_eq (a b : ℚ) : qsub a b = a - b := (Rat.sub_def' a b).symm

theorem qmul_eq (a b : ℚ) : qmul a b = a * b := by
  rw [qmul, ← Rat.mkRat_mul_mkRat, Rat.mkRat_self, Rat.mkRat_self]

theorem qinv_eq (a : ℚ) : qinv a = a⁻¹ := by
  rw [qinv, show (a⁻¹ : ℚ) = a.inv from rfl, Rat.inv_def]

theorem qdiv_eq (a b : ℚ) : qdiv a b = a / b := by
  rw [qdiv, qmul_eq, qinv_eq, division_def]

theorem qpowNat_eq (a : ℚ) (n : ℕ) : qpowNat a n = a ^ n := by
  induction n with
  | zero => rfl
  | succ k ih => rw [qpowNat, qmul_eq, ih, pow_succ]

/-! ## JavaScript numbers -/

/-- A JavaScript number: NaN, +Infinity, -Infinity, or a finite value
(modelled as an exact rational; the -0/+0 distinction is not modelled). -/
inductive JSNum where
  | nan : JSNum
  | posInf : JSNum
  | negInf : JSNum
  | fin : ℚ → JSNum
deriving DecidableEq

namespace JSNum

/-- Number.isFinite. -/
def isFinite : JSNum → Bool
  | fin _ => true
  | _ => false

/-- Recover the rational value of a finite JavaScript number (0 otherwise). -/
def toRat : JSNum → ℚ
  | fin q => q
  | _ => 0

end JSNum

open JSNum

/-- JavaScript addition. -/
def jadd : JSNum → JSNum → JSNum
  | nan, _ => nan
  | _, nan => nan
  | posInf, negInf => nan
  | negInf, posInf => nan
  | posInf, _ => posInf
  | _, posInf => posInf
  | negInf, _ => negInf
  | _, negInf => negInf
  | fin p, fin q => fin (qadd p q)

/-- JavaScript subtraction. -/
def jsub : JSNum → JSNum → JSNum
  | nan, _ => nan
  | _, nan => nan
  | posInf, posInf => nan
  | negInf, negInf => nan
  | posInf, _ => posInf
  | _, posInf => negInf
  | negInf, _ => negInf
  | _, negInf => posInf
  | fin p, fin q => fin (qsub p q)

/-- JavaScript multiplication (Infinity * 0 is NaN). -/
def jmul : JSNum → JSNum → JSNum
  | nan, _ => nan
  | _, nan => nan
  | posInf, posInf => posInf
  | posInf, negInf => negInf
  | negInf, posInf => negInf
  | negInf, negInf => posInf
  | posInf, fin q => if q = 0 then nan else if 0 < q then posInf else negInf
  | fin p, posInf => if p = 0 then nan else if 0 < p then posInf else negInf
  | negInf, fin q => if q = 0 then nan else if 0 < q then negInf else posInf
  | fin p, negInf => if p = 0 then nan else if 0 < p then negInf else posInf
  | fin p, fin q => fin (qmul p q)

/-- JavaScript division (x/0 is ±Infinity for x ≠ 0 and NaN for 0/0;
Infinity/Infinity is NaN; the sign-of-zero distinction is not modelled). -/
def jdiv : JSNum → JSNum → JSNum
  | nan, _ => nan
  | _, nan => nan
  | posInf, posInf => nan
  | posInf, negInf => nan
  | negInf, posInf => nan
  | negInf, negInf => nan
  | posInf, fin q => if 0 ≤ q then posInf else negInf
  | negInf, fin q => if 0 ≤ q then negInf else posInf
  | fin _, posInf => fin 0
  | fin _, negInf => fin 0
  | fin p, fin q =>
      if q = 0 then (if p = 0 then nan else if 0 < p then posInf else negInf)
      else fin (qdiv p q)

/-- JavaScript Math.max of two arguments (NaN-absorbing). -/
def jmax : JSNum → JSNum → JSNum
  | nan, _ => nan
  | _, nan => nan
  | posInf, _ => posInf
  | _, posInf => posInf
  | negInf, y => y
  | x, negInf => x
  | fin p, fin q => fin (max p q)

/-- JavaScript Math.min of two arguments (NaN-absorbing). -/
def jmin : JSNum → JSNum → JSNum
  | nan, _ => nan
  | _, nan => nan
  | negInf, _ => negInf
  | _, negInf => negInf
  | posInf, y => y
  | x, posInf => x
  | fin p, fin q => fin (min p q)

/-- JavaScript `x >= 0` as a Bool (false when x is NaN). -/
def jge0B : JSNum → Bool
  | fin q => decide (0 ≤ q)
  | posInf => true
  | _ => false

/-- JavaScript `x > y` as a Bool (false whenever NaN is involved). -/
def jgtB : JSNum → JSNum → Bool
  | nan, _ => false
  | _, nan => false
  | posInf, posInf => false
  | posInf, _ => true
  | _, posInf => false
  | negInf, negInf => false
  | negInf, _ => false
  | _, negInf => true
  | fin p, fin q => decide (q < p)

/-- JavaScript `x <= y` as a Bool (false whenever NaN is involved). -/
def jleB : JSNum → JSNum → Bool
  | nan, _ => false
  | _, nan => false
  | posInf, posInf => true
  | posInf, _ => false
  | _, posInf => true
  | negInf, _ => true
  | _, negInf => false
  | fin p, fin q => decide (p ≤ q)

/-- The abstraction of the JavaScript Math library on finite arguments:
rational-valued stand-ins for the real-valued log, exp, sqrt and pow
(on a positive finite base), together with the mathematical facts the
embedded programs rely on.  Results are quantified over every such
structure, so they hold for any real-valued semantics of these functions. -/
structure FloatOps where
  log : ℚ → ℚ
  exp : ℚ → ℚ
  sqrt : ℚ → ℚ
  powF : ℚ → ℚ → ℚ
  log_one : log 1 = 0
  exp_pos : ∀ q, 0 < exp q
  pow_zero : ∀ b, powF b 0 = 1

/-- A concrete FloatOps instance used to instantiate witnesses. -/
def constFloatOps : FloatOps where
  log := fun _ => 0
  exp := fun _ => 1
  sqrt := fun _ => 0
  powF := fun _ _ => 1
  log_one := rfl
  exp_pos := fun _ => one_pos
  pow_zero := fun _ => rfl

/-- JavaScript Math.log: NaN on NaN and on negative arguments, -Infinity
at 0, +Infinity at +Infinity, and the abstract log on positive finites. -/
def jlog (F : FloatOps) : JSNum → JSNum
  | nan => nan
  | posInf => posInf
  | negInf => nan
  | fin q => if 0 < q then fin (F.log q) else if q = 0 then negInf else nan

/-- JavaScript Math.exp: NaN on NaN, +Infinity at +Infinity, 0 at
-Infinity, and the abstract exp on finites. -/
def jexp (F : FloatOps) : JSNum → JSNum
  | nan => nan
  | posInf => posInf
  | negInf => fin 0
  | fin q => fin (F.exp q)

/-- JavaScript Math.sqrt: NaN on NaN, on -Infinity and on negative
arguments, +Infinity at +Infinity, and the abstract sqrt on nonnegative
finites. -/
def jsqrt (F : FloatOps) : JSNum → JSNum
  | nan => nan
  | posInf => posInf
  | negInf => nan
  | fin q => if 0 ≤ q then fin (F.sqrt q) else nan

/-- JavaScript Math.pow, following the ECMAScript exponentiation cases:
any base to exponent 0 is 1 (even NaN); NaN otherwise propagates; infinite
exponents compare |base| to 1; a negative finite base demands an integer
exponent; a positive finite base uses the abstract pow. -/
def jpow (F : FloatOps) : JSNum → JSNum → JSNum
  | x, fin e =>
      if e = 0 then fin 1
      else
        match x with
        | nan => nan
        | posInf => if 0 < e then posInf else fin 0
        | negInf =>
            if 0 < e then
              (if e.den = 1 ∧ e.num % 2 ≠ 0 then negInf else posInf)
            else fin 0
        | fin b =>
            if 0 < b then fin (F.powF b e)
            else if b = 0 then (if 0 < e then fin 0 else posInf)
            else
              if e.den = 1 then
                fin (qmul (if e.num % 2 = 0 then 1 else -1) (F.powF (qneg b) e))
              else nan
  | _, nan => nan
  | x, posInf =>
      match x with
      | nan => nan
      | posInf => posInf
      | negInf => posInf
      | fin b => if b = 1 ∨ b = -1 then nan else if -1 < b ∧ b < 1 then fin 0 else posInf
  | x, negInf =>
      match x with
      | nan => nan
      | posInf => fin 0
      | negInf => fin 0
      | fin b => if b = 1 ∨ b = -1 then nan else if -1 < b ∧ b < 1 then posInf else fin 0

/-- Array indexing with any integer index: out-of-range access yields
undefined, which the embedding identifies with NaN because every use site
immediately feeds the result into arithmetic (where undefined becomes NaN). -/
def listGetJS (l : List JSNum) (i : ℤ) : JSNum :=
  if h : 0 ≤ i ∧ i.toNat < l.length then l.get ⟨i.toNat, h.2⟩ else nan

/-- dates.map((date, index) => ...) style indexed mapping, defined by
structural recursion so that it evaluates in the kernel. -/
def mapWithIndex (f : ℕ → α → β) : ℕ → List α → List β
  | _, [] => []
  | i, a :: l => f i a :: mapWithIndex f (i + 1) l

/-- Insertion of one element into a sorted list, keeping the new element in
front of later-arriving equal elements: together with insertionSortBy this
models the stable Array.prototype.sort of ECMAScript, by structural
recursion so that concrete sorts evaluate in the kernel. -/
def insertBy (le : α → α → Bool) (a : α) : List α → List α
  | [] => [a]
  | b :: l => if le a b then a :: b :: l else b :: insertBy le a l

/-- Stable sort by a boolean comparison (models Array.prototype.sort). -/
def insertionSortBy (le : α → α → Bool) : List α → List α
  | [] => []
  | a :: l => insertBy le a (insertionSortBy le l)

/-- The sort comparator `(a, b) => a - b` of the sources as a boolean
ordering: on finite numbers it is the numeric order; a comparison that
evaluates to NaN is treated by the sort as +0 (keep the current order). -/
def jsortLeB (x y : JSNum) : Bool :=
  match jsub x y with
  | fin q => decide (q ≤ 0)
  | posInf => false
  | _ => true

/-! ## Date model and day-index mappers

Date.parse of the genesis date 2009-01-03T00:00:00Z is
1230940800000 = 86400000 * 14247, so genesis is day number 14247 since
1970-01-01. -/

/-- convertToBitcoinDayIndex from script.js on the date-string branch of
its input: a well-formed date with day number d parses to 86400000 * d
milliseconds; Date.parse of a malformed string is NaN, which the
Number.isFinite check turns into a NaN return.  A parsed value at most
1e11 is interpreted by the source as a day count rather than milliseconds
and is scaled by 86400000 once more. -/
def convertToBitcoinDayIndex : Option ℤ → JSNum
  | none => nan
  | some d =>
      let value : ℤ := 86400000 * d
      let timestamp : ℤ := if 100000000000 < value then value else value * 86400000
      fin (((max ((timestamp - 1230940800000).fdiv 86400000 + 1) 1 : ℤ) : ℚ))

/-- daySinceGenesis from part_001 (the daily-update script): whole days
between the genesis date and the input, plus one, clamped to at least 1;
NaN on a malformed date (Math.max(NaN, 1) is NaN). -/
def daySinceGenesis : Option ℤ → JSNum
  | none => nan
  | some d =>
      fin (((max ((86400000 * d - 1230940800000).fdiv 86400000 + 1) 1 : ℤ) : ℚ))

/-! ## rollingAverage (part_001 and scripts/generate-price-db.mjs)

The two source files carry the same function.  Its inputs are the
close-price series parsed from the CSV, which are finite numbers, so the
embedding works on exact rationals. -/

/-- The value of the running variable sum after the loop body of
rollingAverage has processed index i: the new value is added, and the
value leaving the window is subtracted once i >= windowSize. -/
def rollSum (values : List ℚ) (windowSize : ℕ) : ℕ → ℚ
  | 0 => qsub (values.getD 0 0) (if windowSize ≤ 0 then values.getD (0 - windowSize) 0 else 0)
  | i + 1 =>
      qsub (qadd (rollSum values windowSize i) (values.getD (i + 1) 0))
        (if windowSize ≤ i + 1 then values.getD (i + 1 - windowSize) 0 else 0)

/-- rollingAverage: a list of the input length, null before the window is
full and sum/windowSize from index windowSize - 1 on. -/
def rollingAverage (values : List ℚ) (windowSize : ℕ) : List (Option ℚ) :=
  (List.range values.length).map fun i =>
    if windowSize ≤ i + 1 then some (qdiv (rollSum values windowSize i) (windowSize : ℚ))
    else none

/-! ## fitSingleTermPowerLaw (script.js) -/

/-- A raw (day, value) sample as built by the callers of the fitters. -/
structure PLSample where
  day : JSNum
  value : JSNum
deriving DecidableEq

/-- The log-log transformed samples of fitSingleTermPowerLaw: map each
sample to (log(max(day, 1e-9)), log(max(value, 1e-9))) and keep the pairs
in which both logs are finite. -/
def stTransformed (F : FloatOps) (samples : List PLSample) : List (ℚ × ℚ) :=
  samples.filterMap fun s =>
    match jlog F (jmax s.day (fin (mkRat 1 1000000000))),
        jlog F (jmax s.value (fin (mkRat 1 1000000000))) with
    | fin x, fin y => some (x, y)
    | _, _ => none

/-- Mean of the transformed log x values. -/
def stMeanX (t : List (ℚ × ℚ)) : ℚ :=
  qdiv (t.foldl (fun sum p => qadd sum p.1) 0) (t.length : ℚ)

/-- Mean of the transformed log y values. -/
def stMeanY (t : List (ℚ × ℚ)) : ℚ :=
  qdiv (t.foldl (fun sum p => qadd sum p.2) 0) (t.length : ℚ)

/-- Covariance accumulator of fitSingleTermPowerLaw. -/
def stCovariance (t : List (ℚ × ℚ)) : ℚ :=
  t.foldl (fun sum p => qadd sum (qmul (qsub p.1 (stMeanX t)) (qsub p.2 (stMeanY t)))) 0

/-- Variance accumulator of fitSingleTermPowerLaw; the source computes
(p.logX - meanX) ** 2, which on finite numbers is the square. -/
def stVariance (t : List (ℚ × ℚ)) : ℚ :=
  t.foldl (fun sum p => qadd sum (qmul (qsub p.1 (stMeanX t)) (qsub p.1 (stMeanX t)))) 0

/-- fitSingleTermPowerLaw from script.js: null for fewer than 4 samples,
fewer than 4 finite transformed samples, zero variance, or a non-finite
coefficient; otherwise {a, b} with b the OLS slope in log-log space and
a = exp(meanY - b * meanX).  The final Number.isFinite check on a and b is
the match on the jexp result (b here is a rational and thus finite, since
the variance is a nonzero rational). -/
def fitSingleTermPowerLaw (F : FloatOps) (samples : List PLSample) : Option (ℚ × ℚ) :=
  if samples.length < 4 then none
  else
    let transformed := stTransformed F samples
    if transformed.length < 4 then none
    else
      if stVariance transformed = 0 then none
      else
        let b := qdiv (stCovariance transformed) (stVariance transformed)
        let logA := qsub (stMeanY transformed) (qmul b (stMeanX transformed))
        match jexp F (fin logA) with
        | fin a => some (a, b)
        | _ => none

/-! ## fitPowerLawQuantileRegression (script.js) -/

/-- The options record of fitPowerLawQuantileRegression. -/
structure PLOptions where
  iterations : ℕ
  learningRate : ℚ
  epsilon : ℚ
deriving DecidableEq

/-- The defaults: iterations 8000, learningRate 0.02, epsilon 1e-9. -/
def plDefaultOptions : PLOptions :=
  { iterations := 8000, learningRate := mkRat 1 50, epsilon := mkRat 1 1000000000 }

/-- The four-parameter fit result record {a, b, c, d}. -/
structure PLFit where
  a : JSNum
  b : JSNum
  c : JSNum
  d : JSNum
deriving DecidableEq

/-- rawSamples: each date is mapped to its Bitcoin day index, paired with
Number(prices[index]); a missing prices entry is undefined, which Number
coerces to NaN. -/
def plRawSamples (dates : List (Option ℤ)) (prices : List JSNum) : List PLSample :=
  mapWithIndex (fun i date => ⟨convertToBitcoinDayIndex date, prices.getD i nan⟩) 0 dates

/-- samples: the raw samples whose day index and value are both finite. -/
def plUsableSamples (dates : List (Option ℤ)) (prices : List JSNum) : List PLSample :=
  (plRawSamples dates prices).filter fun s => s.day.isFinite && s.value.isFinite

/-- Math.min over the sample values (Math.min of no arguments is
+Infinity). -/
def plMinPrice (samples : List PLSample) : JSNum :=
  (samples.map PLSample.value).foldl jmin posInf

/-- Math.max over the sample values (Math.max of no arguments is
-Infinity). -/
def plMaxPrice (samples : List PLSample) : JSNum :=
  (samples.map PLSample.value).foldl jmax negInf

/-- dayValues: each sample day clamped below by epsilon. -/
def plDayValues (samples : List PLSample) (epsilon : ℚ) : List JSNum :=
  samples.map fun s => jmax s.day (fin epsilon)

/-- Mean of log day over the clamped day values. -/
def plLogXMean (F : FloatOps) (dayValues : List JSNum) : JSNum :=
  jdiv (dayValues.foldl (fun sum day => jadd sum (jlog F day)) (fin 0))
    (fin (dayValues.length : ℚ))

/-- Mean of log price (clamped below by epsilon) over the sample values. -/
def plLogYMean (F : FloatOps) (priceValues : List JSNum) (epsilon : ℚ) : JSNum :=
  jdiv (priceValues.foldl (fun sum price => jadd sum (jlog F (jmax price (fin epsilon)))) (fin 0))
    (fin (priceValues.length : ℚ))

/-- The log-log covariance accumulator of fitPowerLawQuantileRegression;
the indexed access priceValues[index] is the zip of the two lists. -/
def plLogCovariance (F : FloatOps) (dayValues priceValues : List JSNum)
    (mX mY : JSNum) (epsilon : ℚ) : JSNum :=
  (dayValues.zip priceValues).foldl
    (fun sum p =>
      jadd sum (jmul (jsub (jlog F p.1) mX) (jsub (jlog F (jmax p.2 (fin epsilon))) mY)))
    (fin 0)

/-- The log-log variance accumulator; (log(day) - mean) ** 2 is the exact
square on finite numbers. -/
def plLogVariance (F : FloatOps) (dayValues : List JSNum) (mX : JSNum) : JSNum :=
  dayValues.foldl
    (fun sum day => jadd sum (jmul (jsub (jlog F day) mX) (jsub (jlog F day) mX)))
    (fin 0)

/-- dominantExponent: 1 when the variance is exactly zero, otherwise the
log-log OLS slope floored at 0.05. -/
def plDominantExponent (F : FloatOps) (dayValues priceValues : List JSNum)
    (epsilon : ℚ) : JSNum :=
  let mX := plLogXMean F dayValues
  let mY := plLogYMean F priceValues epsilon
  if plLogVariance F dayValues mX = fin 0 then fin 1
  else jmax (jdiv (plLogCovariance F dayValues priceValues mX mY epsilon)
    (plLogVariance F dayValues mX)) (fin (mkRat 1 20))

/-- The optimizer state: the four parameters and their Adam first and
second moment accumulators. -/
structure PLState where
  a : JSNum
  b : JSNum
  c : JSNum
  d : JSNum
  mA : JSNum
  mB : JSNum
  mC : JSNum
  mD : JSNum
  vA : JSNum
  vB : JSNum
  vC : JSNum
  vD : JSNum
deriving DecidableEq

/-- The initial parameter values of fitPowerLawQuantileRegression:
intercept exp(logYMean - dominantExponent * logXMean) split 0.35/0.65
between the two terms, exponents 0.65/1.35 of the dominant exponent with
floors at 0.05 (and a cap of 12 on d); all moments start at 0. -/
def plInitState (F : FloatOps) (samples : List PLSample) (epsilon : ℚ) : PLState :=
  let dayValues := plDayValues samples epsilon
  let priceValues := samples.map PLSample.value
  let e := plDominantExponent F dayValues priceValues epsilon
  let intercept := jexp F (jsub (plLogYMean F priceValues epsilon)
    (jmul e (plLogXMean F dayValues)))
  { a := jmax (jmul intercept (fin (mkRat 7 20))) (fin epsilon)
    b := jmax (jmul e (fin (mkRat 13 20))) (fin (mkRat 1 20))
    c := jmax (jmul intercept (fin (mkRat 13 20))) (fin epsilon)
    d := jmin (jmax (jmul e (fin (mkRat 27 20))) (fin (mkRat 1 20))) (fin 12)
    mA := fin 0, mB := fin 0, mC := fin 0, mD := fin 0
    vA := fin 0, vB := fin 0, vC := fin 0, vD := fin 0 }

/-- The pinball-loss gradient contributions of one sample at the current
parameters, accumulated over the sample list (the inner for-of loop of one
optimizer iteration). -/
def plGradients (F : FloatOps) (tau epsilon : ℚ) (samples : List PLSample)
    (st : PLState) : JSNum × JSNum × JSNum × JSNum :=
  samples.foldl
    (fun g s =>
      let dayBase := jmax s.day (fin epsilon)
      let firstComponent := jpow F dayBase st.b
      let secondComponent := jpow F dayBase st.d
      let prediction := jadd (jmul st.a firstComponent) (jmul st.c secondComponent)
      let residual := jsub s.value prediction
      let psi : ℚ := if jge0B residual then tau else qsub tau 1
      let dLossDPrediction := fin (qneg psi)
      ⟨jadd g.1 (jmul dLossDPrediction firstComponent),
        jadd g.2.1 (jmul (jmul (jmul dLossDPrediction st.a) firstComponent) (jlog F dayBase)),
        jadd g.2.2.1 (jmul dLossDPrediction secondComponent),
        jadd g.2.2.2 (jmul (jmul (jmul dLossDPrediction st.c) secondComponent) (jlog F dayBase))⟩)
    ⟨fin 0, fin 0, fin 0, fin 0⟩

/-- The per-iteration numerical guard of fitPowerLawQuantileRegression on
one parameter: if the stepped value is not finite replace it with the
fallback, then clamp to [lo, hi] as Math.min(Math.max(x, lo), hi). -/
def plFallbackClamp (fallback lo hi x : JSNum) : JSNum :=
  jmin (jmax (if x.isFinite then x else fallback) lo) hi

/-- One full optimizer iteration of fitPowerLawQuantileRegression at
iteration number step: gradients, Adam moment updates and parameter steps,
then the non-finite fallback (a, c to 10% of the minimum price, b to 1,
d to 2) and the hard clamps (a, c to [epsilon, 10 * max price], b, d to
[0.01, 12]). -/
def plStep (F : FloatOps) (minPrice maxPrice : JSNum) (tau learningRate epsilon : ℚ)
    (samples : List PLSample) (st : PLState) (step : ℕ) : PLState :=
  let n : ℚ := (samples.length : ℚ)
  let g := plGradients F tau epsilon samples st
  let gradA := jdiv g.1 (fin n)
  let gradB := jdiv g.2.1 (fin n)
  let gradC := jdiv g.2.2.1 (fin n)
  let gradD := jdiv g.2.2.2 (fin n)
  let mA := jadd (jmul (fin (mkRat 9 10)) st.mA) (jmul (fin (qsub 1 (mkRat 9 10))) gradA)
  let mB := jadd (jmul (fin (mkRat 9 10)) st.mB) (jmul (fin (qsub 1 (mkRat 9 10))) gradB)
  let mC := jadd (jmul (fin (mkRat 9 10)) st.mC) (jmul (fin (qsub 1 (mkRat 9 10))) gradC)
  let mD := jadd (jmul (fin (mkRat 9 10)) st.mD) (jmul (fin (qsub 1 (mkRat 9 10))) gradD)
  let vA := jadd (jmul (fin (mkRat 999 1000)) st.vA)
    (jmul (jmul (fin (qsub 1 (mkRat 999 1000))) gradA) gradA)
  let vB := jadd (jmul (fin (mkRat 999 1000)) st.vB)
    (jmul (jmul (fin (qsub 1 (mkRat 999 1000))) gradB) gradB)
  let vC := jadd (jmul (fin (mkRat 999 1000)) st.vC)
    (jmul (jmul (fin (qsub 1 (mkRat 999 1000))) gradC) gradC)
  let vD := jadd (jmul (fin (mkRat 999 1000)) st.vD)
    (jmul (jmul (fin (qsub 1 (mkRat 999 1000))) gradD) gradD)
  let bc1 : ℚ := qsub 1 (qpowNat (mkRat 9 10) step)
  let bc2 : ℚ := qsub 1 (qpowNat (mkRat 999 1000) step)
  let aStep := jsub st.a (jmul (fin learningRate)
    (jdiv (jdiv mA (fin bc1)) (jadd (jsqrt F (jdiv vA (fin bc2))) (fin epsilon))))
  let bStep := jsub st.b (jmul (fin learningRate)
    (jdiv (jdiv mB (fin bc1)) (jadd (jsqrt F (jdiv vB (fin bc2))) (fin epsilon))))
  let cStep := jsub st.c (jmul (fin learningRate)
    (jdiv (jdiv mC (fin bc1)) (jadd (jsqrt F (jdiv vC (fin bc2))) (fin epsilon))))
  let dStep := jsub st.d (jmul (fin learningRate)
    (jdiv (jdiv mD (fin bc1)) (jadd (jsqrt F (jdiv vD (fin bc2))) (fin epsilon))))
  { a := plFallbackClamp (jmul minPrice (fin (mkRat 1 10))) (fin epsilon)
      (jmul maxPrice (fin 10)) aStep
    b := plFallbackClamp (fin 1) (fin (mkRat 1 100)) (fin 12) bStep
    c := plFallbackClamp (jmul minPrice (fin (mkRat 1 10))) (fin epsilon)
      (jmul maxPrice (fin 10)) cStep
    d := plFallbackClamp (fin 2) (fin (mkRat 1 100)) (fin 12) dStep
    mA := mA, mB := mB, mC := mC, mD := mD
    vA := vA, vB := vB, vC := vC, vD := vD }

/-- The optimizer state after k iterations (iteration numbers run from 1,
matching the for loop of the source). -/
def plIterate (F : FloatOps) (minPrice maxPrice : JSNum) (tau learningRate epsilon : ℚ)
    (samples : List PLSample) : ℕ → PLState
  | 0 => plInitState F samples epsilon
  | k + 1 => plStep F minPrice maxPrice tau learningRate epsilon samples
      (plIterate F minPrice maxPrice tau learningRate epsilon samples k) (k + 1)

/-- The post-fit canonicalization of fitPowerLawQuantileRegression: when
b > d, (a, b) and (c, d) are swapped before returning. -/
def plCanonical (st : PLState) : PLFit :=
  if jgtB st.b st.d then { a := st.c, b := st.d, c := st.a, d := st.b }
  else { a := st.a, b := st.b, c := st.c, d := st.d }

/-- fitPowerLawQuantileRegression from script.js: an all-NaN record for
fewer than 4 usable samples; otherwise the optimizer result after
options.iterations iterations, with (a, b) and (c, d) swapped at the end
when b > d. -/
def fitPowerLawQuantileRegression (F : FloatOps) (dates : List (Option ℤ))
    (prices : List JSNum) (tau : ℚ) (options : PLOptions) : PLFit :=
  let samples := plUsableSamples dates prices
  if samples.length < 4 then { a := nan, b := nan, c := nan, d := nan }
  else
    let minPrice := plMinPrice samples
    let maxPrice := plMaxPrice samples
    plCanonical (plIterate F minPrice maxPrice tau options.learningRate options.epsilon
      samples options.iterations)

/-- predictPowerLaw from script.js: null when any of a, b, c, d is
non-finite, otherwise a * base^b + c * base^d at base = max(day, 1e-9). -/
def predictPowerLaw (F : FloatOps) (date : Option ℤ) (params : PLFit) : Option JSNum :=
  let dayNumber := convertToBitcoinDayIndex date
  if params.a.isFinite && params.b.isFinite && params.c.isFinite && params.d.isFinite then
    let base := jmax dayNumber (fin (mkRat 1 1000000000))
    some (jadd (jmul params.a (jpow F base params.b)) (jmul params.c (jpow F base params.d)))
  else none

/-! ## fitLogLogQuantileRegression (part_001, scripts/generate-price-db.mjs) -/

/-- The options record of fitLogLogQuantileRegression. -/
structure LLOptions where
  iterations : ℕ
  learningRate : ℚ
  epsilon : ℚ
deriving DecidableEq

/-- The defaults: iterations 12000, learningRate 0.02, epsilon 1e-9. -/
def llDefaultOptions : LLOptions :=
  { iterations := 12000, learningRate := mkRat 1 50, epsilon := mkRat 1 1000000000 }

/-- The two-parameter fit result record {alpha, beta}. -/
structure LLFit where
  alpha : JSNum
  beta : JSNum
deriving DecidableEq

/-- The log-log samples of fitLogLogQuantileRegression:
(log(max(daySinceGenesis(date), 1)), log(max(prices[index], epsilon))).
No finiteness filtering takes place in this fitter. -/
def llSamples (F : FloatOps) (dates : List (Option ℤ)) (prices : List JSNum)
    (epsilon : ℚ) : List (JSNum × JSNum) :=
  mapWithIndex
    (fun i date =>
      (jlog F (jmax (daySinceGenesis date) (fin 1)),
        jlog F (jmax (prices.getD i nan) (fin epsilon))))
    0 dates

/-- Mean of the log x coordinates (0/0 = NaN on an empty sample list,
as in the source). -/
def llMeanX (samples : List (JSNum × JSNum)) : JSNum :=
  jdiv (samples.foldl (fun acc p => jadd acc p.1) (fin 0)) (fin (samples.length : ℚ))

/-- Mean of the log y coordinates. -/
def llMeanY (samples : List (JSNum × JSNum)) : JSNum :=
  jdiv (samples.foldl (fun acc p => jadd acc p.2) (fin 0)) (fin (samples.length : ℚ))

/-- The covariance accumulator of fitLogLogQuantileRegression. -/
def llCovariance (samples : List (JSNum × JSNum)) (mX mY : JSNum) : JSNum :=
  samples.foldl (fun acc p => jadd acc (jmul (jsub p.1 mX) (jsub p.2 mY))) (fin 0)

/-- The variance accumulator; (p.logX - meanX) ** 2 is the exact square on
finite numbers. -/
def llVarianceX (samples : List (JSNum × JSNum)) (mX : JSNum) : JSNum :=
  samples.foldl (fun acc p => jadd acc (jmul (jsub p.1 mX) (jsub p.1 mX))) (fin 0)

/-- The POWERLAW_SEEDS table: for tau ∈ {0.01, 0.5, 0.99} the seeds
(alpha10 * Math.log 10, beta) override the OLS initialization. -/
def llSeeded (F : FloatOps) (tau : ℚ) (alpha beta : JSNum) : JSNum × JSNum :=
  if tau = mkRat 1 100 then
    (jmul (fin (mkRat (-86) 5)) (jlog F (fin 10)), fin (mkRat 231 40))
  else if tau = mkRat 1 2 then
    (jmul (fin (mkRat (-789) 50)) (jlog F (fin 10)), fin (mkRat 547 100))
  else if tau = mkRat 99 100 then
    (jmul (fin (mkRat (-2781) 200)) (jlog F (fin 10)), fin (mkRat 1033 200))
  else (alpha, beta)

/-- The optimizer state of the two-parameter fitter. -/
structure LLState where
  alpha : JSNum
  beta : JSNum
  mAlpha : JSNum
  mBeta : JSNum
  vAlpha : JSNum
  vBeta : JSNum
deriving DecidableEq

/-- The initial optimizer state: OLS alpha and beta (beta = 0 when the
variance is exactly zero), overridden by the seed table for the three
seeded quantiles; all moments start at 0. -/
def llInitState (F : FloatOps) (samples : List (JSNum × JSNum)) (tau : ℚ) : LLState :=
  let mX := llMeanX samples
  let mY := llMeanY samples
  let beta0 := if llVarianceX samples mX = fin 0 then fin 0
    else jdiv (llCovariance samples mX mY) (llVarianceX samples mX)
  let alpha0 := jsub mY (jmul beta0 mX)
  let seeded := llSeeded F tau alpha0 beta0
  { alpha := seeded.1, beta := seeded.2
    mAlpha := fin 0, mBeta := fin 0, vAlpha := fin 0, vBeta := fin 0 }

/-- The pinball gradient accumulators of one iteration of the
two-parameter fitter (the inner for-of loop). -/
def llGradients (tau : ℚ) (samples : List (JSNum × JSNum)) (alpha beta : JSNum) :
    JSNum × JSNum :=
  samples.foldl
    (fun g p =>
      let prediction := jadd alpha (jmul beta p.1)
      let residual := jsub p.2 prediction
      let psi : ℚ := if jge0B residual then tau else qsub tau 1
      ⟨jsub g.1 (fin psi), jsub g.2 (jmul (fin psi) p.1)⟩)
    ⟨fin 0, fin 0⟩

/-- One full optimizer iteration of the two-parameter fitter at iteration
number step. -/
def llStep (F : FloatOps) (tau learningRate epsilon : ℚ)
    (samples : List (JSNum × JSNum)) (st : LLState) (step : ℕ) : LLState :=
  let n : ℚ := (samples.length : ℚ)
  let g := llGradients tau samples st.alpha st.beta
  let gradAlpha := jdiv g.1 (fin n)
  let gradBeta := jdiv g.2 (fin n)
  let mAlpha := jadd (jmul (fin (mkRat 9 10)) st.mAlpha)
    (jmul (fin (qsub 1 (mkRat 9 10))) gradAlpha)
  let mBeta := jadd (jmul (fin (mkRat 9 10)) st.mBeta)
    (jmul (fin (qsub 1 (mkRat 9 10))) gradBeta)
  let vAlpha := jadd (jmul (fin (mkRat 999 1000)) st.vAlpha)
    (jmul (jmul (fin (qsub 1 (mkRat 999 1000))) gradAlpha) gradAlpha)
  let vBeta := jadd (jmul (fin (mkRat 999 1000)) st.vBeta)
    (jmul (jmul (fin (qsub 1 (mkRat 999 1000))) gradBeta) gradBeta)
  let bc1 : ℚ := qsub 1 (qpowNat (mkRat 9 10) step)
  let bc2 : ℚ := qsub 1 (qpowNat (mkRat 999 1000) step)
  { alpha := jsub st.alpha (jmul (fin learningRate)
      (jdiv (jdiv mAlpha (fin bc1)) (jadd (jsqrt F (jdiv vAlpha (fin bc2))) (fin epsilon))))
    beta := jsub st.beta (jmul (fin learningRate)
      (jdiv (jdiv mBeta (fin bc1)) (jadd (jsqrt F (jdiv vBeta (fin bc2))) (fin epsilon))))
    mAlpha := mAlpha, mBeta := mBeta, vAlpha := vAlpha, vBeta := vBeta }

/-- The optimizer state of the two-parameter fitter after k iterations. -/
def llIterate (F : FloatOps) (tau learningRate epsilon : ℚ)
    (samples : List (JSNum × JSNum)) : ℕ → LLState
  | 0 => llInitState F samples tau
  | k + 1 => llStep F tau learningRate epsilon samples
      (llIterate F tau learningRate epsilon samples k) (k + 1)

/-- The gradient-descent result of fitLogLogQuantileRegression, before
the intercept-shift refinement. -/
def llGDState (F : FloatOps) (dates : List (Option ℤ)) (prices : List JSNum)
    (tau : ℚ) (options : LLOptions) : LLState :=
  llIterate F tau options.learningRate options.epsilon
    (llSamples F dates prices options.epsilon) options.iterations

/-- The log-space residuals logY - (alpha + beta * logX): the source
first materializes predictedLogs and then subtracts by index, which is the
same elementwise map. -/
def llResiduals (samples : List (JSNum × JSNum)) (alpha beta : JSNum) : List JSNum :=
  samples.map fun p => jsub p.2 (jadd alpha (jmul beta p.1))

/-- fitLogLogQuantileRegression from part_001: gradient descent, then the
intercept shift by the element of the sorted residuals at index
min(max(ceil(tau * N) - 1, 0), N - 1) (an out-of-range index reads
undefined and the addition produces NaN). -/
def fitLogLogQuantileRegression (F : FloatOps) (dates : List (Option ℤ))
    (prices : List JSNum) (tau : ℚ) (options : LLOptions) : LLFit :=
  let samples := llSamples F dates prices options.epsilon
  let st := llIterate F tau options.learningRate options.epsilon samples options.iterations
  let residuals := llResiduals samples st.alpha st.beta
  let sortedResiduals := insertionSortBy jsortLeB residuals
  let quantileIndex : ℤ :=
    min (max (⌈qmul tau (sortedResiduals.length : ℚ)⌉ - 1) 0) ((sortedResiduals.length : ℤ) - 1)
  let interceptShift := listGetJS sortedResiduals quantileIndex
  { alpha := jadd st.alpha interceptShift, beta := st.beta }

/-- predictPowerLaw from part_001: exp(alpha + beta * log(max(day, 1))),
with no finiteness checks of any kind. -/
def predictPowerLawLogLog (F : FloatOps) (date : Option ℤ) (alpha beta : JSNum) : JSNum :=
  jexp F (jadd alpha (jmul beta (jlog F (jmax (daySinceGenesis date) (fin 1)))))

/-- The index formula stated by the specification: the empirical
tau-quantile position ceil(tau * N) - 1, clamped to [0, N - 1]. -/
def specQuantileIndex (tau : ℚ) (n : ℕ) : ℤ :=
  min (max (⌈qmul tau (n : ℚ)⌉ - 1) 0) ((n : ℤ) - 1)

/-! ## attachCalculatedMovingAverages (script.js) -/

/-- An enriched price row as parsed by fetchLocalCsvPrices: date, the two
finite close prices, and the sixteen nullable indicator columns (the CSV
parser maps every stored indicator through toNullableNumber, so a stored
indicator cell may hold any nullable number). -/
structure PriceRow where
  date : Option ℤ
  closeEur : ℚ
  closeUsd : ℚ
  sma50dEur : Option JSNum
  sma200dEur : Option JSNum
  sma200wEur : Option JSNum
  sma200wFactorEur : Option JSNum
  sma50dUsd : Option JSNum
  sma200dUsd : Option JSNum
  sma200wUsd : Option JSNum
  sma200wFactorUsd : Option JSNum
  powerLawQ01Eur : Option JSNum
  powerLawQ50Eur : Option JSNum
  powerLawQ99Eur : Option JSNum
  powerLawFactorEur : Option JSNum
  powerLawQ01Usd : Option JSNum
  powerLawQ50Usd : Option JSNum
  powerLawQ99Usd : Option JSNum
  powerLawFactorUsd : Option JSNum
deriving DecidableEq

/-- A default row for out-of-range list reads. -/
def deadRow : PriceRow :=
  { date := none, closeEur := 0, closeUsd := 0
    sma50dEur := none, sma200dEur := none, sma200wEur := none, sma200wFactorEur := none
    sma50dUsd := none, sma200dUsd := none, sma200wUsd := none, sma200wFactorUsd := none
    powerLawQ01Eur := none, powerLawQ50Eur := none, powerLawQ99Eur := none
    powerLawFactorEur := none
    powerLawQ01Usd := none, powerLawQ50Usd := none, powerLawQ99Usd := none
    powerLawFactorUsd := none }

/-- The `stored ?? computed` null-coalescing of the source. -/
def nullCoalesce (a b : Option α) : Option α :=
  match a with
  | some v => some v
  | none => b

/-- The 200-week-factor computation
`Number.isFinite(ma) && ma !== 0 ? close / ma : null`. -/
def finQuotFactor (close : ℚ) (o : Option JSNum) : Option JSNum :=
  match o with
  | some (fin q) => if q = 0 then none else some (fin (qdiv close q))
  | _ => none

/-- The power-law band position
`isFinite(q99) && isFinite(q01) && q99 !== q01 ? (close - q01)/(q99 - q01) : null`. -/
def bandFactor (close : ℚ) (hi lo : Option JSNum) : Option JSNum :=
  match hi, lo with
  | some (fin h), some (fin l) =>
      if h = l then none else some (fin (qdiv (qsub close l) (qsub h l)))
  | _, _ => none

/-- Date comparison of the row sort `(a, b) => a.date.localeCompare(b.date)`:
on well-formed ISO date strings, string order is chronological order;
malformed dates are placed first (a fixed arbitrary order standing in for
their string order, irrelevant to the claims). -/
def dateLeB : Option ℤ → Option ℤ → Bool
  | none, _ => true
  | some _, none => false
  | some x, some y => decide (x ≤ y)

/-- The row sort of attachCalculatedMovingAverages. -/
def sortRowsByDate (rows : List PriceRow) : List PriceRow :=
  insertionSortBy (fun r1 r2 => dateLeB r1.date r2.date) rows

/-- The sorted.map body of attachCalculatedMovingAverages: process the
row at index i with the six running window sums (already holding the sums
up to the previous row), producing the enriched row and recursing.  Every
output field is the stored cell if non-null, otherwise the freshly
computed value; date and the close columns are carried over by the object
spread. -/
def attachGo (F : FloatOps) (sorted : List PriceRow)
    (eurQ01 eurQ50 eurQ99 usdQ01 usdQ50 usdQ99 : PLFit) :
    ℕ → ℚ → ℚ → ℚ → ℚ → ℚ → ℚ → List PriceRow → List PriceRow
  | _, _, _, _, _, _, _, [] => []
  | i, s50e, s200e, s1400e, s50u, s200u, s1400u, row :: rest =>
      let e50 := qadd s50e row.closeEur
      let e200 := qadd s200e row.closeEur
      let e1400 := qadd s1400e row.closeEur
      let u50 := qadd s50u row.closeUsd
      let u200 := qadd s200u row.closeUsd
      let u1400 := qadd s1400u row.closeUsd
      let e50b := if 50 ≤ i then qsub e50 (sorted.getD (i - 50) deadRow).closeEur else e50
      let u50b := if 50 ≤ i then qsub u50 (sorted.getD (i - 50) deadRow).closeUsd else u50
      let e200b := if 200 ≤ i then qsub e200 (sorted.getD (i - 200) deadRow).closeEur else e200
      let u200b := if 200 ≤ i then qsub u200 (sorted.getD (i - 200) deadRow).closeUsd else u200
      let e1400b := if 1400 ≤ i then qsub e1400 (sorted.getD (i - 1400) deadRow).closeEur else e1400
      let u1400b := if 1400 ≤ i then qsub u1400 (sorted.getD (i - 1400) deadRow).closeUsd else u1400
      let sma200wEur := nullCoalesce row.sma200wEur
        (if 1399 ≤ i then some (fin (qdiv e1400b 1400)) else none)
      let sma200wUsd := nullCoalesce row.sma200wUsd
        (if 1399 ≤ i then some (fin (qdiv u1400b 1400)) else none)
      let powerLawQ01Eur := nullCoalesce row.powerLawQ01Eur (predictPowerLaw F row.date eurQ01)
      let powerLawQ99Eur := nullCoalesce row.powerLawQ99Eur (predictPowerLaw F row.date eurQ99)
      let powerLawQ01Usd := nullCoalesce row.powerLawQ01Usd (predictPowerLaw F row.date usdQ01)
      let powerLawQ99Usd := nullCoalesce row.powerLawQ99Usd (predictPowerLaw F row.date usdQ99)
      { date := row.date
        closeEur := row.closeEur
        closeUsd := row.closeUsd
        sma50dEur := nullCoalesce row.sma50dEur
          (if 49 ≤ i then some (fin (qdiv e50b 50)) else none)
        sma200dEur := nullCoalesce row.sma200dEur
          (if 199 ≤ i then some (fin (qdiv e200b 200)) else none)
        sma200wEur := sma200wEur
        sma200wFactorEur := nullCoalesce row.sma200wFactorEur
          (finQuotFactor row.closeEur sma200wEur)
        sma50dUsd := nullCoalesce row.sma50dUsd
          (if 49 ≤ i then some (fin (qdiv u50b 50)) else none)
        sma200dUsd := nullCoalesce row.sma200dUsd
          (if 199 ≤ i then some (fin (qdiv u200b 200)) else none)
        sma200wUsd := sma200wUsd
        sma200wFactorUsd := nullCoalesce row.sma200wFactorUsd
          (finQuotFactor row.closeUsd sma200wUsd)
        powerLawQ01Eur := powerLawQ01Eur
        powerLawQ50Eur := nullCoalesce row.powerLawQ50Eur (predictPowerLaw F row.date eurQ50)
        powerLawQ99Eur := powerLawQ99Eur
        powerLawFactorEur := nullCoalesce row.powerLawFactorEur
          (bandFactor row.closeEur powerLawQ99Eur powerLawQ01Eur)
        powerLawQ01Usd := powerLawQ01Usd
        powerLawQ50Usd := nullCoalesce row.powerLawQ50Usd (predictPowerLaw F row.date usdQ50)
        powerLawQ99Usd := powerLawQ99Usd
        powerLawFactorUsd := nullCoalesce row.powerLawFactorUsd
          (bandFactor row.closeUsd powerLawQ99Usd powerLawQ01Usd) } ::
      attachGo F sorted eurQ01 eurQ50 eurQ99 usdQ01 usdQ50 usdQ99
        (i + 1) e50b e200b e1400b u50b u200b u1400b rest

/-- attachCalculatedMovingAverages from script.js: sort the rows by date,
fit the six quantile curves over the full sorted series with the default
options, then enrich every row with the fill-if-absent policy. -/
def attachCalculatedMovingAverages (F : FloatOps) (rows : List PriceRow) : List PriceRow :=
  let sorted := sortRowsByDate rows
  let dateSeries := sorted.map PriceRow.date
  let eurSeries := sorted.map fun r => fin r.closeEur
  let usdSeries := sorted.map fun r => fin r.closeUsd
  let eurQ01 := fitPowerLawQuantileRegression F dateSeries eurSeries (mkRat 1 100) plDefaultOptions
  let eurQ50 := fitPowerLawQuantileRegression F dateSeries eurSeries (mkRat 1 2) plDefaultOptions
  let eurQ99 := fitPowerLawQuantileRegression F dateSeries eurSeries (mkRat 99 100) plDefaultOptions
  let usdQ01 := fitPowerLawQuantileRegression F dateSeries usdSeries (mkRat 1 100) plDefaultOptions
  let usdQ50 := fitPowerLawQuantileRegression F dateSeries usdSeries (mkRat 1 2) plDefaultOptions
  let usdQ99 := fitPowerLawQuantileRegression F dateSeries usdSeries (mkRat 99 100) plDefaultOptions
  attachGo F sorted eurQ01 eurQ50 eurQ99 usdQ01 usdQ50 usdQ99 0 0 0 0 0 0 0 sorted

/-- The fill-if-absent contract between an input row and its enriched
output row: stored indicator cells are carried over unchanged, and the
date and close columns are never modified. -/
def rowPreserved (r o : PriceRow) : Prop :=
  o.date = r.date ∧ o.closeEur = r.closeEur ∧ o.closeUsd = r.closeUsd ∧
  (r.sma50dEur.isSome → o.sma50dEur = r.sma50dEur) ∧
  (r.sma200dEur.isSome → o.sma200dEur = r.sma200dEur) ∧
  (r.sma200wEur.isSome → o.sma200wEur = r.sma200wEur) ∧
  (r.sma200wFactorEur.isSome → o.sma200wFactorEur = r.sma200wFactorEur) ∧
  (r.sma50dUsd.isSome → o.sma50dUsd = r.sma50dUsd) ∧
  (r.sma200dUsd.isSome → o.sma200dUsd = r.sma200dUsd) ∧
  (r.sma200wUsd.isSome → o.sma200wUsd = r.sma200wUsd) ∧
  (r.sma200wFactorUsd.isSome → o.sma200wFactorUsd = r.sma200wFactorUsd) ∧
  (r.powerLawQ01Eur.isSome → o.powerLawQ01Eur = r.powerLawQ01Eur) ∧
  (r.powerLawQ50Eur.isSome → o.powerLawQ50Eur = r.powerLawQ50Eur) ∧
  (r.powerLawQ99Eur.isSome → o.powerLawQ99Eur = r.powerLawQ99Eur) ∧
  (r.powerLawFactorEur.isSome → o.powerLawFactorEur = r.powerLawFactorEur) ∧
  (r.powerLawQ01Usd.isSome → o.powerLawQ01Usd = r.powerLawQ01Usd) ∧
  (r.powerLawQ50Usd.isSome → o.powerLawQ50Usd = r.powerLawQ50Usd) ∧
  (r.powerLawQ99Usd.isSome → o.powerLawQ99Usd = r.powerLawQ99Usd) ∧
  (r.powerLawFactorUsd.isSome → o.powerLawFactorUsd = r.powerLawFactorUsd)

/-- A concrete row with some stored indicator cells, used to instantiate
the fill-if-absent theorem on a concrete input. -/
def sampleStoredRow : PriceRow :=
  { date := some 14250, closeEur := 10, closeUsd := 12
    sma50dEur := some (fin 7), sma200dEur := none, sma200wEur := some (fin 3)
    sma200wFactorEur := none
    sma50dUsd := none, sma200dUsd := none, sma200wUsd := none, sma200wFactorUsd := none
    powerLawQ01Eur := some (fin 5), powerLawQ50Eur := none, powerLawQ99Eur := none
    powerLawFactorEur := none
    powerLawQ01Usd := none, powerLawQ50Usd := none, powerLawQ99Usd := none
    powerLawFactorUsd := none }

/-! ## Basic lemmas about the embedding -/

theorem isFinite_iff {x : JSNum} : x.isFinite = true ↔ ∃ q, x = fin q := by
  cases x <;> simp [JSNum.isFinite]

theorem jdiv_fin_of_ne {p q : ℚ} (h : q ≠ 0) : jdiv (fin p) (fin q) = fin (qdiv p q) := by
  simp [jdiv, h]

theorem jlog_fin_of_pos (F : FloatOps) {q : ℚ} (h : 0 < q) :
    jlog F (fin q) = fin (F.log q) := by
  simp [jlog, h]

theorem foldl_jadd_isFinite {α : Type} (g : α → JSNum) :
    ∀ (l : List α) (acc : JSNum), acc.isFinite = true →
      (∀ x ∈ l, (g x).isFinite = true) →
      ((l.foldl (fun s x => jadd s (g x)) acc).isFinite = true) := by
  intro l
  induction l with
  | nil => intro acc hacc _; simpa using hacc
  | cons a t ih =>
      intro acc hacc hall
      simp only [List.foldl_cons]
      apply ih
      · rcases isFinite_iff.1 hacc with ⟨p, rfl⟩
        rcases isFinite_iff.1 (hall a (List.mem_cons_self a t)) with ⟨q, hq⟩
        rw [hq]; rfl
      · intro x hx; exact hall x (List.mem_cons_of_mem a hx)

theorem foldl_jmin_isFinite :
    ∀ (l : List JSNum) (acc : JSNum), acc.isFinite = true →
      (∀ x ∈ l, x.isFinite = true) → ((l.foldl jmin acc).isFinite = true) := by
  intro l
  induction l with
  | nil => intro acc hacc _; simpa using hacc
  | cons a t ih =>
      intro acc hacc hall
      simp only [List.foldl_cons]
      apply ih
      · rcases isFinite_iff.1 hacc with ⟨p, rfl⟩
        rcases isFinite_iff.1 (hall a (List.mem_cons_self a t)) with ⟨q, hq⟩
        rw [hq]; rfl
      · intro x hx; exact hall x (List.mem_cons_of_mem a hx)

theorem foldl_jmax_isFinite :
    ∀ (l : List JSNum) (acc : JSNum), acc.isFinite = true →
      (∀ x ∈ l, x.isFinite = true) → ((l.foldl jmax acc).isFinite = true) := by
  intro l
  induction l with
  | nil => intro acc hacc _; simpa using hacc
  | cons a t ih =>
      intro acc hacc hall
      simp only [List.foldl_cons]
      apply ih
      · rcases isFinite_iff.1 hacc with ⟨p, rfl⟩
        rcases isFinite_iff.1 (hall a (List.mem_cons_self a t)) with ⟨q, hq⟩
        rw [hq]; rfl
      · intro x hx; exact hall x (List.mem_cons_of_mem a hx)

theorem mem_mapWithIndex {f : ℕ → α → β} {b : β} :
    ∀ {i : ℕ} {l : List α}, b ∈ mapWithIndex f i l → ∃ j a, b = f j a := by
  intro i l
  induction l generalizing i with
  | nil => intro h; simp [mapWithIndex] at h
  | cons a t ih =>
      intro h
      rcases List.mem_cons.1 h with h1 | h2
      · exact ⟨i, a, h1⟩
      · exact ih h2

theorem length_mapWithIndex {f : ℕ → α → β} :
    ∀ (i : ℕ) (l : List α), (mapWithIndex f i l).length = l.length := by
  intro i l
  induction l generalizing i with
  | nil => rfl
  | cons a t ih => simp [mapWithIndex, ih]

theorem daySinceGenesis_some (d : ℤ) :
    daySinceGenesis (some d) = fin ((max (d - 14246) 1 : ℤ) : ℚ) := by
  have key : (86400000 * d - 1230940800000).fdiv 86400000 + 1 = d - 14246 := by
    rw [show (86400000 * d - 1230940800000 : ℤ) = 86400000 * (d - 14247) from by ring,
      Int.mul_fdiv_cancel_left _ (by norm_num)]
    ring
  show fin ((max ((86400000 * d - 1230940800000).fdiv 86400000 + 1) 1 : ℤ) : ℚ)
    = fin ((max (d - 14246) 1 : ℤ) : ℚ)
  rw [key]

theorem convert_some_high {d : ℤ} (h : (100000000000 : ℤ) < 86400000 * d) :
    convertToBitcoinDayIndex (some d) = fin ((max (d - 14246) 1 : ℤ) : ℚ) := by
  have key : (86400000 * d - 1230940800000).fdiv 86400000 + 1 = d - 14246 := by
    rw [show (86400000 * d - 1230940800000 : ℤ) = 86400000 * (d - 14247) from by ring,
      Int.mul_fdiv_cancel_left _ (by norm_num)]
    ring
  show fin ((max (((if (100000000000 : ℤ) < 86400000 * d then 86400000 * d
      else 86400000 * d * 86400000) - 1230940800000).fdiv 86400000 + 1) 1 : ℤ) : ℚ)
    = fin ((max (d - 14246) 1 : ℤ) : ℚ)
  rw [if_pos h, key]

theorem convert_fin_ge_one : ∀ {od : Option ℤ} {q : ℚ},
    convertToBitcoinDayIndex od = fin q → 1 ≤ q := by
  intro od q h
  cases od with
  | none => exact absurd h (by simp [convertToBitcoinDayIndex])
  | some d =>
      have h0 : convertToBitcoinDayIndex (some d)
          = fin ((max (((if (100000000000 : ℤ) < 86400000 * d then 86400000 * d
            else 86400000 * d * 86400000) - 1230940800000).fdiv 86400000 + 1) 1 : ℤ) : ℚ) := rfl
      rw [h0] at h
      injection h with h2
      rw [← h2]
      have h3 : (1 : ℤ) ≤ max (((if (100000000000 : ℤ) < 86400000 * d then 86400000 * d
          else 86400000 * d * 86400000) - 1230940800000).fdiv 86400000 + 1) 1 :=
        le_max_right _ _
      exact_mod_cast h3

/-- C7 (amended): the script.js day-index mapper is monotone and sends
every date at or before the epoch to 1 only on dates whose parsed
timestamp exceeds 1e11 milliseconds (dates from 1973-03-04 on); on earlier
well-formed dates its day-count heuristic rescales the timestamp and both
properties fail.  It returns NaN on every malformed date.  The
daySinceGenesis mapper of the update script satisfies monotonicity,
epoch clamping and the NaN sentinel on all dates. -/
theorem claim7_day_index_amended :
    (∀ d1 d2 : ℤ, (100000000000 : ℤ) < 86400000 * d1 → d1 ≤ d2 →
      jleB (convertToBitcoinDayIndex (some d1)) (convertToBitcoinDayIndex (some d2)) = true)
    ∧ (∀ d : ℤ, (100000000000 : ℤ) < 86400000 * d → d ≤ 14247 →
      convertToBitcoinDayIndex (some d) = fin 1)
    ∧ convertToBitcoinDayIndex none = nan
    ∧ (∀ d1 d2 : ℤ, d1 ≤ d2 →
      jleB (daySinceGenesis (some d1)) (daySinceGenesis (some d2)) = true)
    ∧ (∀ d : ℤ, d ≤ 14247 → daySinceGenesis (some d) = fin 1)
    ∧ daySinceGenesis none = nan := by
  refine ⟨?_, ?_, rfl, ?_, ?_, rfl⟩
  · intro d1 d2 h1 h12
    have h2 : (100000000000 : ℤ) < 86400000 * d2 :=
      lt_of_lt_of_le h1 (mul_le_mul_of_nonneg_left h12 (by norm_num))
    rw [convert_some_high h1, convert_some_high h2]
    have h3 : (max (d1 - 14246) 1 : ℤ) ≤ max (d2 - 14246) 1 := by omega
    simp only [jleB, decide_eq_true_eq]
    exact_mod_cast h3
  · intro d hd h14
    rw [convert_some_high hd]
    have h3 : (max (d - 14246) 1 : ℤ) = 1 := by omega
    rw [h3]; norm_num
  · intro d1 d2 h12
    rw [daySinceGenesis_some, daySinceGenesis_some]
    have h3 : (max (d1 - 14246) 1 : ℤ) ≤ max (d2 - 14246) 1 := by omega
    simp only [jleB, decide_eq_true_eq]
    exact_mod_cast h3
  · intro d h14
    rw [daySinceGenesis_some]
    have h3 : (max (d - 14246) 1 : ℤ) = 1 := by omega
    rw [h3]; norm_num

/-- C7 witness: the amended properties at concrete dates (the genesis
day 14247 and its successor). -/
theorem claim7_witness :
    (100000000000 : ℤ) < 86400000 * 14247
    ∧ jleB (convertToBitcoinDayIndex (some 14247)) (convertToBitcoinDayIndex (some 14248)) = true
    ∧ convertToBitcoinDayIndex (some 14247) = fin 1
    ∧ jleB (daySinceGenesis (some 100)) (daySinceGenesis (some 200)) = true
    ∧ daySinceGenesis (some 100) = fin 1 :=
  ⟨by decide,
    claim7_day_index_amended.1 14247 14248 (by decide) (by decide),
    claim7_day_index_amended.2.1 14247 (by decide) (by decide),
    claim7_day_index_amended.2.2.2.1 100 200 (by decide),
    claim7_day_index_amended.2.2.2.2.1 100 (by decide)⟩

/-- C7 counterexample: 1973-03-03 (day 1157) and 1973-03-04 (day 1158)
are both well-formed dates before the epoch, yet the script.js day-index
mapper sends the earlier one to 99964785754 and the later one to 1:
monotonicity fails, and a pre-epoch date does not map to 1. -/
theorem claim7_cex :
    (1157 : ℤ) < 1158
    ∧ jleB (convertToBitcoinDayIndex (some 1157)) (convertToBitcoinDayIndex (some 1158)) = false
    ∧ (1157 : ℤ) < 14247
    ∧ convertToBitcoinDayIndex (some 1157) = fin 99964785754
    ∧ convertToBitcoinDayIndex (some 1158) = fin 1 :=
  ⟨by decide, by decide, by decide, by decide, by decide⟩

/-- C9: the fitting routines are deterministic functions of their
inputs: two runs on equal date and price arrays with equal quantile and
equal options return equal parameter records (the embedding is a pure
function because the sources read no global mutable state and use no
randomness). -/
theorem claim9_deterministic (F : FloatOps) (dates1 dates2 : List (Option ℤ))
    (prices1 prices2 : List JSNum) (tau1 tau2 : ℚ)
    (hd : dates1 = dates2) (hp : prices1 = prices2) (ht : tau1 = tau2) :
    (∀ o1 o2 : PLOptions, o1 = o2 →
      fitPowerLawQuantileRegression F dates1 prices1 tau1 o1
        = fitPowerLawQuantileRegression F dates2 prices2 tau2 o2)
    ∧ (∀ o1 o2 : LLOptions, o1 = o2 →
      fitLogLogQuantileRegression F dates1 prices1 tau1 o1
        = fitLogLogQuantileRegression F dates2 prices2 tau2 o2) := by
  subst hd; subst hp; subst ht
  exact ⟨fun o1 o2 ho => by rw [ho], fun o1 o2 ho => by rw [ho]⟩

/-- C9 witness: determinism instantiated on a concrete run. -/
theorem claim9_witness :
    fitPowerLawQuantileRegression constFloatOps [some 14247] [fin 1] (mkRat 1 2)
        plDefaultOptions
      = fitPowerLawQuantileRegression constFloatOps [some 14247] [fin 1] (mkRat 1 2)
        plDefaultOptions :=
  (claim9_deterministic constFloatOps [some 14247] [some 14247] [fin 1] [fin 1]
    (mkRat 1 2) (mkRat 1 2) rfl rfl rfl).1 plDefaultOptions plDefaultOptions rfl

/-- C10: the on-the-fly single-term fitter returns null (never a NaN
record, never a raised error: the embedding is a total function) when it
cannot fit: fewer than 4 samples, fewer than 4 finite log-transformed
samples, or zero variance of the log day indexes (and a non-finite
coefficient would also produce null by the final match); every non-null
result {a, b} has b the finite log-log OLS slope and
a = exp(meanLogY - b * meanLogX) finite and strictly positive. -/
theorem claim10_single_term_guards (F : FloatOps) (samples : List PLSample) :
    (samples.length < 4 → fitSingleTermPowerLaw F samples = none)
    ∧ ((stTransformed F samples).length < 4 → fitSingleTermPowerLaw F samples = none)
    ∧ (stVariance (stTransformed F samples) = 0 → fitSingleTermPowerLaw F samples = none)
    ∧ (∀ av bv, fitSingleTermPowerLaw F samples = some (av, bv) →
        bv = stCovariance (stTransformed F samples) / stVariance (stTransformed F samples)
        ∧ av = F.exp (stMeanY (stTransformed F samples)
            - bv * stMeanX (stTransformed F samples))
        ∧ 0 < av) := by
  unfold fitSingleTermPowerLaw
  refine ⟨fun h => by simp [h], ?_, ?_, ?_⟩
  · intro h
    by_cases h1 : samples.length < 4
    · simp [h1]
    · simp [h1, h]
  · intro h
    by_cases h1 : samples.length < 4
    · simp [h1]
    · by_cases h2 : (stTransformed F samples).length < 4
      · simp [h1, h2]
      · simp [h1, h2, h]
  · intro av bv h
    by_cases h1 : samples.length < 4
    · simp [h1] at h
    · by_cases h2 : (stTransformed F samples).length < 4
      · simp [h1, h2] at h
      · by_cases h3 : stVariance (stTransformed F samples) = 0
        · simp [h1, h2, h3] at h
        · simp only [h1, h2, h3, if_neg, if_false, jexp] at h
          have hav : av = F.exp (qsub (stMeanY (stTransformed F samples))
              (qmul (qdiv (stCovariance (stTransformed F samples))
                (stVariance (stTransformed F samples)))
                (stMeanX (stTransformed F samples)))) := by
            cases h; rfl
          have hbv : bv = qdiv (stCovariance (stTransformed F samples))
              (stVariance (stTransformed F samples)) := by
            cases h; rfl
          refine ⟨by rw [hbv, qdiv_eq], ?_, ?_⟩
          · rw [hav, hbv, qsub_eq, qmul_eq, qdiv_eq]
          · rw [hav]; exact F.exp_pos _

/-- C10 witness: the empty sample list has fewer than 4 samples and
the fitter returns null on it. -/
theorem claim10_witness :
    ([] : List PLSample).length < 4 ∧ fitSingleTermPowerLaw constFloatOps [] = none :=
  ⟨by decide, (claim10_single_term_guards constFloatOps []).1 (by decide)⟩

/-- C1 (amended): the four-parameter fitter returns the all-NaN
sentinel record for every input with fewer than 4 usable samples (day
index and price both finite), and never throws (the embedding is total);
the two-parameter log-log fitter performs no minimum-sample check, so it
does not return an all-NaN result on such inputs in general. -/
theorem claim1_insufficient_data_amended (F : FloatOps) (dates : List (Option ℤ))
    (prices : List JSNum) (tau : ℚ) (options : PLOptions)
    (h : (plUsableSamples dates prices).length < 4) :
    fitPowerLawQuantileRegression F dates prices tau options
      = { a := nan, b := nan, c := nan, d := nan } := by
  unfold fitPowerLawQuantileRegression
  simp [h]

/-- C1 witness: a single usable sample is fewer than 4, and the
four-parameter fitter returns the all-NaN record on it. -/
theorem claim1_witness :
    (plUsableSamples [some 14247] [fin 1]).length < 4
    ∧ fitPowerLawQuantileRegression constFloatOps [some 14247] [fin 1] (mkRat 1 2)
        plDefaultOptions = { a := nan, b := nan, c := nan, d := nan } :=
  ⟨by decide,
    claim1_insufficient_data_amended constFloatOps [some 14247] [fin 1] (mkRat 1 2)
      plDefaultOptions (by decide)⟩

/-- C1 counterexample: three usable samples (all at the genesis date
with price 1, so that the day index is 1 and both logarithms are 0), a
quantile without a seed entry and zero optimizer iterations: the
two-parameter log-log fitter returns the finite record
{alpha = 0, beta = 0} instead of an all-NaN sentinel, refuting the claim
for the two-parameter routine (it has no minimum-sample check at all). -/
theorem claim1_cex :
    ([some 14247, some 14247, some 14247] : List (Option ℤ)).length < 4
    ∧ fitLogLogQuantileRegression constFloatOps [some 14247, some 14247, some 14247]
        [fin 1, fin 1, fin 1] (mkRat 1 4)
        { iterations := 0, learningRate := mkRat 1 50, epsilon := mkRat 1 1000000000 }
      = { alpha := fin 0, beta := fin 0 }
    ∧ ({ alpha := fin 0, beta := fin 0 } : LLFit) ≠ { alpha := nan, beta := nan } :=
  ⟨by decide, by decide, by decide⟩

theorem jpow_fin_pos (F : FloatOps) {b : ℚ} (hb : 0 < b) (e : ℚ) :
    jpow F (fin b) (fin e) = fin (F.powF b e) := by
  by_cases he : e = 0
  · subst he
    show (if (0 : ℚ) = 0 then fin 1
      else if 0 < b then fin (F.powF b 0) else if b = 0 then (if (0:ℚ) < 0 then fin 0 else posInf)
        else if (0:ℚ).den = 1 then fin (qmul (if (0:ℚ).num % 2 = 0 then 1 else -1)
          (F.powF (qneg b) 0)) else nan) = fin (F.powF b 0)
    rw [if_pos rfl, F.pow_zero]
  · show (if e = 0 then fin 1
      else if 0 < b then fin (F.powF b e) else if b = 0 then (if 0 < e then fin 0 else posInf)
        else if e.den = 1 then fin (qmul (if e.num % 2 = 0 then 1 else -1)
          (F.powF (qneg b) e)) else nan) = fin (F.powF b e)
    rw [if_neg he, if_pos hb]

/-- C2 (amended): the four-parameter predictor returns null exactly on
a non-finite parameter; with all parameters finite and a well-formed date
it returns the model value a * base^b + c * base^d at
base = max(dayIndex, 1e-9).  The day index is not checked: a malformed
date flows into the arithmetic (see the counterexample, which produces
NaN).  The two-parameter predictor of the update script performs no checks
at all and returns exp(alpha + beta * log(max(day, 1))) on finite inputs. -/
theorem claim2_predictor_amended (F : FloatOps) :
    (∀ (date : Option ℤ) (params : PLFit),
      ¬(params.a.isFinite = true ∧ params.b.isFinite = true
        ∧ params.c.isFinite = true ∧ params.d.isFinite = true) →
      predictPowerLaw F date params = none)
    ∧ (∀ (d : ℤ) (q a b c e : ℚ), convertToBitcoinDayIndex (some d) = fin q →
      predictPowerLaw F (some d) { a := fin a, b := fin b, c := fin c, d := fin e }
        = some (fin (a * F.powF (max q (mkRat 1 1000000000)) b
            + c * F.powF (max q (mkRat 1 1000000000)) e)))
    ∧ (∀ (date : Option ℤ) (q al be : ℚ), daySinceGenesis date = fin q →
      predictPowerLawLogLog F date (fin al) (fin be)
        = fin (F.exp (al + be * F.log (max q 1)))) := by
  refine ⟨?_, ?_, ?_⟩
  · intro date params h
    have hb : (params.a.isFinite && params.b.isFinite && params.c.isFinite
        && params.d.isFinite) = false := by
      rw [Bool.eq_false_iff]
      intro hcon
      simp only [Bool.and_eq_true] at hcon
      exact h ⟨hcon.1.1.1, hcon.1.1.2, hcon.1.2, hcon.2⟩
    unfold predictPowerLaw
    simp [hb]
  · intro d q a b c e hq
    have hq1 : (1 : ℚ) ≤ q := convert_fin_ge_one hq
    have hbase : 0 < max q (mkRat 1 1000000000) :=
      lt_of_lt_of_le one_pos (le_trans hq1 (le_max_left _ _))
    unfold predictPowerLaw
    rw [hq]
    have hcond : ((fin a).isFinite && (fin b).isFinite && (fin c).isFinite
        && (fin e).isFinite) = true := rfl
    simp only [hcond, if_true]
    show some (jadd (jmul (fin a) (jpow F (jmax (fin q) (fin (mkRat 1 1000000000))) (fin b)))
      (jmul (fin c) (jpow F (jmax (fin q) (fin (mkRat 1 1000000000))) (fin e)))) = _
    have hm : jmax (fin q) (fin (mkRat 1 1000000000)) = fin (max q (mkRat 1 1000000000)) := rfl
    rw [hm, jpow_fin_pos F hbase b, jpow_fin_pos F hbase e]
    show some (fin (qadd (qmul a (F.powF (max q (mkRat 1 1000000000)) b))
      (qmul c (F.powF (max q (mkRat 1 1000000000)) e)))) = _
    rw [qadd_eq, qmul_eq, qmul_eq]
  · intro date q al be hq
    unfold predictPowerLawLogLog
    rw [hq]
    have hm : jmax (fin q) (fin 1) = fin (max q 1) := rfl
    have hpos : 0 < max q 1 := lt_of_lt_of_le one_pos (le_max_right _ _)
    rw [hm, jlog_fin_of_pos F hpos]
    show fin (F.exp (qadd al (qmul be (F.log (max q 1))))) = _
    rw [qadd_eq, qmul_eq]

/-- C2 witness: the amended statements instantiated concretely: a NaN
parameter yields null; finite parameters at the genesis date (day index 1)
yield the model value for both predictors. -/
theorem claim2_witness :
    predictPowerLaw constFloatOps none { a := nan, b := fin 1, c := fin 1, d := fin 1 } = none
    ∧ predictPowerLaw constFloatOps (some 14247) { a := fin 1, b := fin 1, c := fin 1, d := fin 1 }
      = some (fin (1 * constFloatOps.powF (max 1 (mkRat 1 1000000000)) 1
          + 1 * constFloatOps.powF (max 1 (mkRat 1 1000000000)) 1))
    ∧ predictPowerLawLogLog constFloatOps (some 14247) (fin 0) (fin 0)
      = fin (constFloatOps.exp (0 + 0 * constFloatOps.log (max 1 1))) :=
  ⟨(claim2_predictor_amended constFloatOps).1 none _ (by decide),
    (claim2_predictor_amended constFloatOps).2.1 14247 1 1 1 1 1 (by decide),
    (claim2_predictor_amended constFloatOps).2.2 (some 14247) 1 0 0 (by decide)⟩

/-- C2 counterexample: with all four parameters finite but a malformed
date, the four-parameter predictor returns the number NaN, not null: the
day index is never checked, refuting both the null-on-non-finite-day part
and the never-returns-NaN part of the claim. -/
theorem claim2_cex :
    predictPowerLaw constFloatOps none { a := fin 1, b := fin 1, c := fin 1, d := fin 2 }
      = some nan
    ∧ predictPowerLaw constFloatOps none { a := fin 1, b := fin 1, c := fin 1, d := fin 2 }
      ≠ none :=
  ⟨by decide, by decide⟩

theorem rollSum_eq (values : List ℚ) (w : ℕ) (hw : 1 ≤ w) :
    ∀ i, i < values.length →
      rollSum values w i = ((values.take (i + 1)).drop (i + 1 - w)).sum := by
  intro i
  induction i with
  | zero =>
      intro h0
      cases values with
      | nil => simp at h0
      | cons v rest =>
          have key : rollSum (v :: rest) w 0
              = qsub ((v :: rest).getD 0 0)
                (if w ≤ 0 then (v :: rest).getD (0 - w) 0 else 0) := rfl
          rw [key, if_neg (by omega), qsub_eq, sub_zero]
          have h1 : (0 : ℕ) + 1 - w = 0 := by omega
          simp [h1]
  | succ i ih =>
      intro hsucc
      have hi : i < values.length := lt_trans (Nat.lt_succ_self i) hsucc
      have key : rollSum values w (i + 1)
          = qsub (qadd (rollSum values w i) (values.getD (i + 1) 0))
              (if w ≤ i + 1 then values.getD (i + 1 - w) 0 else 0) := rfl
      rw [key, ih hi, qsub_eq, qadd_eq]
      have hget : values.getD (i + 1) 0 = values.get ⟨i + 1, hsucc⟩ := by
        rw [List.getD_eq_get?, List.get?_eq_get hsucc]; rfl
      have htake : values.take (i + 1 + 1)
          = values.take (i + 1) ++ [values.get ⟨i + 1, hsucc⟩] := by
        rw [List.take_succ, List.getElem?_eq_getElem hsucc]; rfl
      by_cases hcase : w ≤ i + 1
      · rw [if_pos hcase]
        have hk1 : i + 1 + 1 - w = (i + 1 - w) + 1 := by omega
        rw [htake, hk1]
        have hlen1 : (i + 1 - w) + 1 ≤ (values.take (i + 1)).length := by
          rw [List.length_take]; omega
        rw [List.drop_append_of_le_length hlen1, List.sum_append]
        have hkval : i + 1 - w < values.length := by omega
        have hklt : i + 1 - w < (values.take (i + 1)).length := by
          rw [List.length_take]; omega
        have hdropk : (values.take (i + 1)).drop (i + 1 - w)
            = (values.take (i + 1)).get ⟨i + 1 - w, hklt⟩
              :: (values.take (i + 1)).drop (i + 1 - w + 1) :=
          List.drop_eq_get_cons hklt
        rw [hdropk, List.sum_cons]
        have hgetk : (values.take (i + 1)).get ⟨i + 1 - w, hklt⟩
            = values.getD (i + 1 - w) 0 := by
          rw [List.get_take' values]
          rw [List.getD_eq_get?, List.get?_eq_get hkval]
          rfl
        rw [hgetk, hget]
        simp only [List.sum_cons, List.sum_nil]
        ring
      · rw [if_neg hcase]
        have h0a : i + 1 - w = 0 := by omega
        have h0b : i + 1 + 1 - w = 0 := by omega
        rw [h0a, h0b, htake]
        simp only [List.drop_zero, List.sum_append, List.sum_cons, List.sum_nil]
        rw [hget]
        ring

/-- C6: rollingAverage keeps the input length; entry i is null for
i < w - 1 and is the arithmetic mean of the window values[i-w+1..i]
(expressed as the slice (take (i+1)).drop (i+1-w)) divided by w from index
w - 1 on. -/
theorem claim6_rolling_average (values : List ℚ) (w : ℕ) (hw : 1 ≤ w) :
    (rollingAverage values w).length = values.length
    ∧ (∀ i, i < values.length → i + 1 < w → (rollingAverage values w).getD i none = none)
    ∧ (∀ i, i < values.length → w ≤ i + 1 →
        (rollingAverage values w).getD i none
          = some (((values.take (i + 1)).drop (i + 1 - w)).sum / (w : ℚ))) := by
  have hgd : ∀ i, i < values.length → (rollingAverage values w).getD i none
      = if w ≤ i + 1 then some (qdiv (rollSum values w i) (w : ℚ)) else none := by
    intro i hi
    unfold rollingAverage
    rw [List.getD_eq_get?, List.get?_map, List.get?_range hi]
    rfl
  refine ⟨by simp [rollingAverage], ?_, ?_⟩
  · intro i hi hlt
    rw [hgd i hi, if_neg (by omega)]
  · intro i hi hle
    rw [hgd i hi, if_pos hle, rollSum_eq values w hw i hi, qdiv_eq]

/-- C6 witness: prices [1,2,3,4,5] with window 3: entry 1 is null and
entry 2 is the mean of the first three values. -/
theorem claim6_witness :
    1 ≤ 3
    ∧ (rollingAverage [1, 2, 3, 4, 5] 3).getD 1 none = none
    ∧ (rollingAverage [1, 2, 3, 4, 5] 3).getD 2 none
      = some (((([1, 2, 3, 4, 5] : List ℚ).take 3).drop 0).sum / (3 : ℚ)) :=
  ⟨by decide,
    (claim6_rolling_average [1, 2, 3, 4, 5] 3 (by decide)).2.1 1 (by decide) (by decide),
    (claim6_rolling_average [1, 2, 3, 4, 5] 3 (by decide)).2.2 2 (by decide) (by decide)⟩

theorem plFallbackClamp_bounds (fb x : JSNum) {lo hi : ℚ} (hfb : ∃ q, fb = fin q)
    (hlohi : lo ≤ hi) :
    ∃ q, plFallbackClamp fb (fin lo) (fin hi) x = fin q ∧ lo ≤ q ∧ q ≤ hi := by
  rcases hfb with ⟨f, rfl⟩
  unfold plFallbackClamp
  cases x with
  | fin y =>
      exact ⟨min (max y lo) hi, rfl, le_min (le_max_right _ _) hlohi, min_le_right _ _⟩
  | nan => exact ⟨min (max f lo) hi, rfl, le_min (le_max_right _ _) hlohi, min_le_right _ _⟩
  | posInf => exact ⟨min (max f lo) hi, rfl, le_min (le_max_right _ _) hlohi, min_le_right _ _⟩
  | negInf => exact ⟨min (max f lo) hi, rfl, le_min (le_max_right _ _) hlohi, min_le_right _ _⟩

theorem plStep_bd_bounds (F : FloatOps) (minPrice maxPrice : JSNum)
    (tau learningRate epsilon : ℚ) (samples : List PLSample) (st : PLState) (k : ℕ) :
    (∃ q, (plStep F minPrice maxPrice tau learningRate epsilon samples st k).b = fin q
      ∧ mkRat 1 100 ≤ q ∧ q ≤ 12)
    ∧ (∃ q, (plStep F minPrice maxPrice tau learningRate epsilon samples st k).d = fin q
      ∧ mkRat 1 100 ≤ q ∧ q ≤ 12) := by
  constructor
  · obtain ⟨x, hx⟩ : ∃ x, (plStep F minPrice maxPrice tau learningRate epsilon samples st k).b
        = plFallbackClamp (fin 1) (fin (mkRat 1 100)) (fin 12) x := ⟨_, rfl⟩
    rw [hx]
    exact plFallbackClamp_bounds _ _ ⟨1, rfl⟩ (by norm_num)
  · obtain ⟨x, hx⟩ : ∃ x, (plStep F minPrice maxPrice tau learningRate epsilon samples st k).d
        = plFallbackClamp (fin 2) (fin (mkRat 1 100)) (fin 12) x := ⟨_, rfl⟩
    rw [hx]
    exact plFallbackClamp_bounds _ _ ⟨2, rfl⟩ (by norm_num)

theorem plStep_ac_bounds (F : FloatOps) (m M : ℚ)
    (tau learningRate epsilon : ℚ) (samples : List PLSample) (st : PLState) (k : ℕ)
    (heps : epsilon ≤ qmul M 10) :
    (∃ q, (plStep F (fin m) (fin M) tau learningRate epsilon samples st k).a = fin q
      ∧ epsilon ≤ q ∧ q ≤ qmul M 10)
    ∧ (∃ q, (plStep F (fin m) (fin M) tau learningRate epsilon samples st k).c = fin q
      ∧ epsilon ≤ q ∧ q ≤ qmul M 10) := by
  constructor
  · obtain ⟨x, hx⟩ : ∃ x, (plStep F (fin m) (fin M) tau learningRate epsilon samples st k).a
        = plFallbackClamp (fin (qmul m (mkRat 1 10))) (fin epsilon) (fin (qmul M 10)) x :=
      ⟨_, rfl⟩
    rw [hx]
    exact plFallbackClamp_bounds _ _ ⟨_, rfl⟩ heps
  · obtain ⟨x, hx⟩ : ∃ x, (plStep F (fin m) (fin M) tau learningRate epsilon samples st k).c
        = plFallbackClamp (fin (qmul m (mkRat 1 10))) (fin epsilon) (fin (qmul M 10)) x :=
      ⟨_, rfl⟩
    rw [hx]
    exact plFallbackClamp_bounds _ _ ⟨_, rfl⟩ heps

theorem plUsable_mem (dates : List (Option ℤ)) (prices : List JSNum) :
    ∀ s ∈ plUsableSamples dates prices,
      (∃ q, s.day = fin q ∧ 1 ≤ q) ∧ ∃ p, s.value = fin p := by
  intro s hs
  have hmem := List.mem_filter.1 hs
  have hpred := hmem.2
  simp only [Bool.and_eq_true] at hpred
  constructor
  · rcases mem_mapWithIndex hmem.1 with ⟨j, a, ha⟩
    rcases isFinite_iff.1 hpred.1 with ⟨q, hq⟩
    refine ⟨q, hq, ?_⟩
    have hday : s.day = convertToBitcoinDayIndex a := by rw [ha]
    exact convert_fin_ge_one (by rw [← hday, hq])
  · exact isFinite_iff.1 hpred.2

theorem plMinPrice_fin (samples : List PLSample) (hne : samples ≠ [])
    (hv : ∀ s ∈ samples, ∃ p, s.value = fin p) :
    ∃ m, plMinPrice samples = fin m := by
  cases samples with
  | nil => exact absurd rfl hne
  | cons s t =>
      rcases hv s (List.mem_cons_self s t) with ⟨p, hp⟩
      apply isFinite_iff.1
      unfold plMinPrice
      rw [List.map_cons, List.foldl_cons]
      apply foldl_jmin_isFinite
      · rw [hp]; rfl
      · intro x hx
        rcases List.mem_map.1 hx with ⟨u, hu, rfl⟩
        rcases hv u (List.mem_cons_of_mem s hu) with ⟨p2, hp2⟩
        rw [hp2]; rfl

theorem plMaxPrice_fin (samples : List PLSample) (hne : samples ≠ [])
    (hv : ∀ s ∈ samples, ∃ p, s.value = fin p) :
    ∃ m, plMaxPrice samples = fin m := by
  cases samples with
  | nil => exact absurd rfl hne
  | cons s t =>
      rcases hv s (List.mem_cons_self s t) with ⟨p, hp⟩
      apply isFinite_iff.1
      unfold plMaxPrice
      rw [List.map_cons, List.foldl_cons]
      apply foldl_jmax_isFinite
      · rw [hp]; rfl
      · intro x hx
        rcases List.mem_map.1 hx with ⟨u, hu, rfl⟩
        rcases hv u (List.mem_cons_of_mem s hu) with ⟨p2, hp2⟩
        rw [hp2]; rfl

theorem fitPL_eq_canonical (F : FloatOps) (dates : List (Option ℤ)) (prices : List JSNum)
    (tau : ℚ) (options : PLOptions) (h4 : 4 ≤ (plUsableSamples dates prices).length) :
    fitPowerLawQuantileRegression F dates prices tau options
      = plCanonical (plIterate F (plMinPrice (plUsableSamples dates prices))
          (plMaxPrice (plUsableSamples dates prices)) tau options.learningRate
          options.epsilon (plUsableSamples dates prices) options.iterations) := by
  unfold fitPowerLawQuantileRegression
  rw [if_neg (by omega)]

theorem plCanonical_bounds {st : PLState} {P Q : ℚ → Prop}
    (ha : ∃ q, st.a = fin q ∧ P q) (hb : ∃ q, st.b = fin q ∧ Q q)
    (hc : ∃ q, st.c = fin q ∧ P q) (hd : ∃ q, st.d = fin q ∧ Q q) :
    (∃ q, (plCanonical st).a = fin q ∧ P q) ∧ (∃ q, (plCanonical st).b = fin q ∧ Q q)
    ∧ (∃ q, (plCanonical st).c = fin q ∧ P q) ∧ (∃ q, (plCanonical st).d = fin q ∧ Q q) := by
  unfold plCanonical
  by_cases hbd : jgtB st.b st.d = true
  · rw [if_pos hbd]
    exact ⟨hc, hd, ha, hb⟩
  · rw [if_neg hbd]
    exact ⟨ha, hb, hc, hd⟩

/-- C4: after every optimizer iteration (the first conjunct covers an
arbitrary incoming state, hence every iteration), each parameter has been
made finite by its fallback (a, c from 10% of the minimum price, b from 1,
d from 2) and clamped: a and c lie in [epsilon, 10 * max price] (strictly
positive since epsilon > 0) and b and d lie in [0.01, 12]; consequently
the returned fit result satisfies the same bounds whenever there are at
least 4 usable samples and at least one iteration runs.  The hypothesis
epsilon <= 10 * max price makes the clamp interval non-empty; the defaults
satisfy it for every positive price series. -/
theorem claim4_iteration_clamp (F : FloatOps) :
    (∀ (m M tau learningRate epsilon : ℚ) (samples : List PLSample) (st : PLState) (k : ℕ),
      epsilon ≤ qmul M 10 →
      (∃ q, (plStep F (fin m) (fin M) tau learningRate epsilon samples st k).a = fin q
        ∧ epsilon ≤ q ∧ q ≤ qmul M 10)
      ∧ (∃ q, (plStep F (fin m) (fin M) tau learningRate epsilon samples st k).b = fin q
        ∧ mkRat 1 100 ≤ q ∧ q ≤ 12)
      ∧ (∃ q, (plStep F (fin m) (fin M) tau learningRate epsilon samples st k).c = fin q
        ∧ epsilon ≤ q ∧ q ≤ qmul M 10)
      ∧ (∃ q, (plStep F (fin m) (fin M) tau learningRate epsilon samples st k).d = fin q
        ∧ mkRat 1 100 ≤ q ∧ q ≤ 12))
    ∧ (∀ (dates : List (Option ℤ)) (prices : List JSNum) (tau : ℚ) (options : PLOptions)
        (M : ℚ),
      4 ≤ (plUsableSamples dates prices).length → 1 ≤ options.iterations →
      plMaxPrice (plUsableSamples dates prices) = fin M →
      options.epsilon ≤ qmul M 10 →
      (∃ q, (fitPowerLawQuantileRegression F dates prices tau options).a = fin q
        ∧ options.epsilon ≤ q ∧ q ≤ qmul M 10)
      ∧ (∃ q, (fitPowerLawQuantileRegression F dates prices tau options).b = fin q
        ∧ mkRat 1 100 ≤ q ∧ q ≤ 12)
      ∧ (∃ q, (fitPowerLawQuantileRegression F dates prices tau options).c = fin q
        ∧ options.epsilon ≤ q ∧ q ≤ qmul M 10)
      ∧ (∃ q, (fitPowerLawQuantileRegression F dates prices tau options).d = fin q
        ∧ mkRat 1 100 ≤ q ∧ q ≤ 12)) := by
  constructor
  · intro m M tau learningRate epsilon samples st k heps
    exact ⟨(plStep_ac_bounds F m M tau learningRate epsilon samples st k heps).1,
      (plStep_bd_bounds F (fin m) (fin M) tau learningRate epsilon samples st k).1,
      (plStep_ac_bounds F m M tau learningRate epsilon samples st k heps).2,
      (plStep_bd_bounds F (fin m) (fin M) tau learningRate epsilon samples st k).2⟩
  · intro dates prices tau options M h4 hit hM heps
    have hne : plUsableSamples dates prices ≠ [] := by
      intro h0; rw [h0] at h4; simp at h4
    have hv : ∀ s ∈ plUsableSamples dates prices, ∃ p, s.value = fin p :=
      fun s hs => (plUsable_mem dates prices s hs).2
    rcases plMinPrice_fin _ hne hv with ⟨m, hm⟩
    obtain ⟨j, hj⟩ : ∃ j, options.iterations = j + 1 := ⟨options.iterations - 1, by omega⟩
    rw [fitPL_eq_canonical F dates prices tau options h4, hj]
    have hstep : plIterate F (plMinPrice (plUsableSamples dates prices))
        (plMaxPrice (plUsableSamples dates prices)) tau options.learningRate options.epsilon
        (plUsableSamples dates prices) (j + 1)
        = plStep F (plMinPrice (plUsableSamples dates prices))
          (plMaxPrice (plUsableSamples dates prices)) tau options.learningRate options.epsilon
          (plUsableSamples dates prices)
          (plIterate F (plMinPrice (plUsableSamples dates prices))
            (plMaxPrice (plUsableSamples dates prices)) tau options.learningRate
            options.epsilon (plUsableSamples dates prices) j) (j + 1) := rfl
    rw [hstep, hm, hM]
    exact plCanonical_bounds
      (plStep_ac_bounds F m M tau options.learningRate options.epsilon _ _ _ heps).1
      (plStep_bd_bounds F (fin m) (fin M) tau options.learningRate options.epsilon _ _ _).1
      (plStep_ac_bounds F m M tau options.learningRate options.epsilon _ _ _ heps).2
      (plStep_bd_bounds F (fin m) (fin M) tau options.learningRate options.epsilon _ _ _).2

theorem plDayValues_fin (samples : List PLSample) (eps : ℚ)
    (hday : ∀ s ∈ samples, ∃ q, s.day = fin q ∧ 1 ≤ q) :
    ∀ x ∈ plDayValues samples eps, ∃ q, x = fin q ∧ 0 < q := by
  intro x hx
  rcases List.mem_map.1 hx with ⟨s, hs, rfl⟩
  rcases hday s hs with ⟨q, hq, hq1⟩
  rw [hq]
  exact ⟨max q eps, rfl, lt_of_lt_of_le one_pos (le_trans hq1 (le_max_left _ _))⟩

theorem plLogXMean_fin (F : FloatOps) (samples : List PLSample) (eps : ℚ)
    (h4 : 4 ≤ samples.length)
    (hday : ∀ s ∈ samples, ∃ q, s.day = fin q ∧ 1 ≤ q) :
    ∃ q, plLogXMean F (plDayValues samples eps) = fin q := by
  have hnum : ((plDayValues samples eps).foldl
      (fun sum day => jadd sum (jlog F day)) (fin 0)).isFinite = true := by
    apply foldl_jadd_isFinite
    · rfl
    · intro x hx
      rcases plDayValues_fin samples eps hday x hx with ⟨q, rfl, hq⟩
      rw [jlog_fin_of_pos F hq]; rfl
  rcases isFinite_iff.1 hnum with ⟨q, hq⟩
  have hlen : ((plDayValues samples eps).length : ℚ) ≠ 0 := by
    unfold plDayValues
    rw [List.length_map]
    exact_mod_cast by omega
  unfold plLogXMean
  rw [hq, jdiv_fin_of_ne hlen]
  exact ⟨_, rfl⟩

theorem plLogYMean_fin (F : FloatOps) (samples : List PLSample) (eps : ℚ)
    (heps : 0 < eps) (h4 : 4 ≤ samples.length)
    (hval : ∀ s ∈ samples, ∃ p, s.value = fin p) :
    ∃ q, plLogYMean F (samples.map PLSample.value) eps = fin q := by
  have hnum : (((samples.map PLSample.value)).foldl
      (fun sum price => jadd sum (jlog F (jmax price (fin eps)))) (fin 0)).isFinite = true := by
    apply foldl_jadd_isFinite
    · rfl
    · intro x hx
      rcases List.mem_map.1 hx with ⟨s, hs, rfl⟩
      rcases hval s hs with ⟨p, hp⟩
      rw [hp]
      have hmx : jmax (fin p) (fin eps) = fin (max p eps) := rfl
      rw [hmx, jlog_fin_of_pos F (lt_of_lt_of_le heps (le_max_right _ _))]
      rfl
  rcases isFinite_iff.1 hnum with ⟨q, hq⟩
  have hlen : ((samples.map PLSample.value).length : ℚ) ≠ 0 := by
    rw [List.length_map]
    exact_mod_cast by omega
  unfold plLogYMean
  rw [hq, jdiv_fin_of_ne hlen]
  exact ⟨_, rfl⟩

theorem plDominantExponent_fin (F : FloatOps) (samples : List PLSample) (eps : ℚ)
    (heps : 0 < eps) (h4 : 4 ≤ samples.length)
    (hday : ∀ s ∈ samples, ∃ q, s.day = fin q ∧ 1 ≤ q)
    (hval : ∀ s ∈ samples, ∃ p, s.value = fin p) :
    ∃ q, plDominantExponent F (plDayValues samples eps) (samples.map PLSample.value) eps
      = fin q := by
  rcases plLogXMean_fin F samples eps h4 hday with ⟨mx, hmx⟩
  rcases plLogYMean_fin F samples eps heps h4 hval with ⟨my, hmy⟩
  have hvar : (plLogVariance F (plDayValues samples eps)
      (plLogXMean F (plDayValues samples eps))).isFinite = true := by
    unfold plLogVariance
    apply foldl_jadd_isFinite
    · rfl
    · intro x hx
      rcases plDayValues_fin samples eps hday x hx with ⟨q, rfl, hq⟩
      rw [jlog_fin_of_pos F hq, hmx]
      rfl
  have hcov : (plLogCovariance F (plDayValues samples eps) (samples.map PLSample.value)
      (plLogXMean F (plDayValues samples eps))
      (plLogYMean F (samples.map PLSample.value) eps) eps).isFinite = true := by
    unfold plLogCovariance
    apply foldl_jadd_isFinite
    · rfl
    · intro x hx
      rcases List.of_mem_zip hx with ⟨hx1, hx2⟩
      rcases plDayValues_fin samples eps hday x.1 hx1 with ⟨q, hq, hqpos⟩
      rcases List.mem_map.1 hx2 with ⟨s, hs, hsv⟩
      rcases hval s hs with ⟨p, hp⟩
      rw [hq, jlog_fin_of_pos F hqpos, hmx, ← hsv, hp]
      have hmxp : jmax (fin p) (fin eps) = fin (max p eps) := rfl
      rw [hmxp, jlog_fin_of_pos F (lt_of_lt_of_le heps (le_max_right _ _)), hmy]
      rfl
  rcases isFinite_iff.1 hvar with ⟨vq, hvq⟩
  unfold plDominantExponent
  rw [hmy]
  by_cases hv0 : plLogVariance F (plDayValues samples eps)
      (plLogXMean F (plDayValues samples eps)) = fin 0
  · rw [if_pos hv0]
    exact ⟨1, rfl⟩
  · rw [if_neg hv0]
    rcases isFinite_iff.1 hcov with ⟨cq, hcq⟩
    rw [hmy] at hcq
    have hvne : vq ≠ 0 := by
      intro h0
      exact hv0 (by rw [hvq, h0])
    rw [hvq, hcq, jdiv_fin_of_ne hvne]
    exact ⟨_, rfl⟩

theorem plInit_bd_fin (F : FloatOps) (samples : List PLSample) (eps : ℚ)
    (heps : 0 < eps) (h4 : 4 ≤ samples.length)
    (hday : ∀ s ∈ samples, ∃ q, s.day = fin q ∧ 1 ≤ q)
    (hval : ∀ s ∈ samples, ∃ p, s.value = fin p) :
    (∃ q, (plInitState F samples eps).b = fin q)
    ∧ (∃ q, (plInitState F samples eps).d = fin q) := by
  rcases plDominantExponent_fin F samples eps heps h4 hday hval with ⟨e, he⟩
  have hb : (plInitState F samples eps).b
      = jmax (jmul (plDominantExponent F (plDayValues samples eps)
          (samples.map PLSample.value) eps) (fin (mkRat 13 20))) (fin (mkRat 1 20)) := rfl
  have hd : (plInitState F samples eps).d
      = jmin (jmax (jmul (plDominantExponent F (plDayValues samples eps)
          (samples.map PLSample.value) eps) (fin (mkRat 27 20))) (fin (mkRat 1 20)))
          (fin 12) := rfl
  constructor
  · rw [hb, he]; exact ⟨_, rfl⟩
  · rw [hd, he]; exact ⟨_, rfl⟩

theorem plCanonical_le {st : PLState} {bq dq : ℚ}
    (hb : st.b = fin bq) (hd : st.d = fin dq) :
    jleB (plCanonical st).b (plCanonical st).d = true := by
  unfold plCanonical
  rw [hb, hd]
  by_cases hlt : dq < bq
  · have hg : jgtB (fin bq) (fin dq) = true := by
      simp [jgtB, hlt]
    rw [if_pos hg]
    show jleB (fin dq) (fin bq) = true
    simp [jleB, le_of_lt hlt]
  · have hg : jgtB (fin bq) (fin dq) = false := by
      simp [jgtB, hlt]
    rw [hg]
    show jleB (fin bq) (fin dq) = true
    simp [jleB]
    exact le_of_not_lt hlt

/-- C3: for every input with at least 4 usable samples (and a positive
epsilon option, as in the defaults), the four-parameter fit result
satisfies b <= d: the post-optimization canonicalization swaps (a, b) with
(c, d) whenever b > d, and both exponents are finite numbers. -/
theorem claim3_canonical_b_le_d (F : FloatOps) (dates : List (Option ℤ))
    (prices : List JSNum) (tau : ℚ) (options : PLOptions)
    (h4 : 4 ≤ (plUsableSamples dates prices).length)
    (heps : 0 < options.epsilon) :
    jleB (fitPowerLawQuantileRegression F dates prices tau options).b
      (fitPowerLawQuantileRegression F dates prices tau options).d = true := by
  rw [fitPL_eq_canonical F dates prices tau options h4]
  have hday : ∀ s ∈ plUsableSamples dates prices, ∃ q, s.day = fin q ∧ 1 ≤ q :=
    fun s hs => (plUsable_mem dates prices s hs).1
  have hval : ∀ s ∈ plUsableSamples dates prices, ∃ p, s.value = fin p :=
    fun s hs => (plUsable_mem dates prices s hs).2
  cases hit : options.iterations with
  | zero =>
      have h0 : plIterate F (plMinPrice (plUsableSamples dates prices))
          (plMaxPrice (plUsableSamples dates prices)) tau options.learningRate
          options.epsilon (plUsableSamples dates prices) 0
          = plInitState F (plUsableSamples dates prices) options.epsilon := rfl
      rw [h0]
      rcases plInit_bd_fin F (plUsableSamples dates prices) options.epsilon heps h4
        hday hval with ⟨⟨bq, hbq⟩, ⟨dq, hdq⟩⟩
      exact plCanonical_le hbq hdq
  | succ j =>
      have h1 : plIterate F (plMinPrice (plUsableSamples dates prices))
          (plMaxPrice (plUsableSamples dates prices)) tau options.learningRate
          options.epsilon (plUsableSamples dates prices) (j + 1)
          = plStep F (plMinPrice (plUsableSamples dates prices))
            (plMaxPrice (plUsableSamples dates prices)) tau options.learningRate
            options.epsilon (plUsableSamples dates prices)
            (plIterate F (plMinPrice (plUsableSamples dates prices))
              (plMaxPrice (plUsableSamples dates prices)) tau options.learningRate
              options.epsilon (plUsableSamples dates prices) j) (j + 1) := rfl
      rw [h1]
      rcases plStep_bd_bounds F (plMinPrice (plUsableSamples dates prices))
        (plMaxPrice (plUsableSamples dates prices)) tau options.learningRate
        options.epsilon (plUsableSamples dates prices)
        (plIterate F (plMinPrice (plUsableSamples dates prices))
          (plMaxPrice (plUsableSamples dates prices)) tau options.learningRate
          options.epsilon (plUsableSamples dates prices) j) (j + 1)
        with ⟨⟨bq, hbq, _⟩, ⟨dq, hdq, _⟩⟩
      exact plCanonical_le hbq hdq

/-- C3 witness: a concrete 4-sample series under the default options. -/
theorem claim3_witness :
    4 ≤ (plUsableSamples [some 14247, some 14248, some 14249, some 14250]
        [fin 1, fin 2, fin 3, fin 4]).length
    ∧ 0 < plDefaultOptions.epsilon
    ∧ jleB (fitPowerLawQuantileRegression constFloatOps
        [some 14247, some 14248, some 14249, some 14250]
        [fin 1, fin 2, fin 3, fin 4] (mkRat 1 2) plDefaultOptions).b
      (fitPowerLawQuantileRegression constFloatOps
        [some 14247, some 14248, some 14249, some 14250]
        [fin 1, fin 2, fin 3, fin 4] (mkRat 1 2) plDefaultOptions).d = true :=
  ⟨by decide, by decide,
    claim3_canonical_b_le_d constFloatOps
      [some 14247, some 14248, some 14249, some 14250]
      [fin 1, fin 2, fin 3, fin 4] (mkRat 1 2) plDefaultOptions (by decide) (by decide)⟩

/-- C4 witness: the per-iteration bounds at a concrete state and the
returned-result bounds on a concrete 4-sample series. -/
theorem claim4_witness :
    mkRat 1 1000000000 ≤ qmul 1 10
    ∧ (∃ q, (plStep constFloatOps (fin 0) (fin 1) (mkRat 1 2) (mkRat 1 50)
        (mkRat 1 1000000000) []
        { a := fin 0, b := fin 0, c := fin 0, d := fin 0
          mA := fin 0, mB := fin 0, mC := fin 0, mD := fin 0
          vA := fin 0, vB := fin 0, vC := fin 0, vD := fin 0 } 1).b = fin q
      ∧ mkRat 1 100 ≤ q ∧ q ≤ 12)
    ∧ 4 ≤ (plUsableSamples [some 14247, some 14248, some 14249, some 14250]
        [fin 1, fin 1, fin 1, fin 1]).length
    ∧ plMaxPrice (plUsableSamples [some 14247, some 14248, some 14249, some 14250]
        [fin 1, fin 1, fin 1, fin 1]) = fin 1
    ∧ (∃ q, (fitPowerLawQuantileRegression constFloatOps
        [some 14247, some 14248, some 14249, some 14250]
        [fin 1, fin 1, fin 1, fin 1] (mkRat 1 2) plDefaultOptions).a = fin q
      ∧ plDefaultOptions.epsilon ≤ q ∧ q ≤ qmul 1 10) :=
  ⟨by decide,
    ((claim4_iteration_clamp constFloatOps).1 0 1 (mkRat 1 2) (mkRat 1 50)
      (mkRat 1 1000000000) []
      { a := fin 0, b := fin 0, c := fin 0, d := fin 0
        mA := fin 0, mB := fin 0, mC := fin 0, mD := fin 0
        vA := fin 0, vB := fin 0, vC := fin 0, vD := fin 0 } 1 (by decide)).2.1,
    by decide, by decide,
    ((claim4_iteration_clamp constFloatOps).2
      [some 14247, some 14248, some 14249, some 14250]
      [fin 1, fin 1, fin 1, fin 1] (mkRat 1 2) plDefaultOptions 1
      (by decide) (by decide) (by decide) (by decide)).1⟩

theorem insertBy_perm (le : α → α → Bool) (a : α) :
    ∀ l : List α, (insertBy le a l).Perm (a :: l) := by
  intro l
  induction l with
  | nil => exact List.Perm.refl _
  | cons b t ih =>
      unfold insertBy
      by_cases h : le a b = true
      · rw [if_pos h]
      · rw [if_neg h]
        exact (ih.cons b).trans (List.Perm.swap a b t)

theorem insertionSortBy_perm (le : α → α → Bool) :
    ∀ l : List α, (insertionSortBy le l).Perm l := by
  intro l
  induction l with
  | nil => exact List.Perm.refl _
  | cons a t ih =>
      unfold insertionSortBy
      exact (insertBy_perm le a (insertionSortBy le t)).trans (ih.cons a)

theorem jsortLeB_fin (p q : ℚ) : jsortLeB (fin p) (fin q) = decide (p ≤ q) := by
  show decide (qsub p q ≤ 0) = decide (p ≤ q)
  rw [qsub_eq]
  by_cases h : p ≤ q
  · simp [sub_nonpos.2 h, h]
  · simp [h, fun hc => h (sub_nonpos.1 hc)]

theorem insertBy_map_toRat (p : ℚ) :
    ∀ l : List JSNum, (∀ x ∈ l, ∃ q, x = fin q) →
      (insertBy jsortLeB (fin p) l).map JSNum.toRat
        = List.orderedInsert (· ≤ ·) p (l.map JSNum.toRat) := by
  intro l
  induction l with
  | nil => intro _; rfl
  | cons b t ih =>
      intro hl
      rcases hl b (List.mem_cons_self b t) with ⟨q, rfl⟩
      unfold insertBy
      rw [jsortLeB_fin]
      by_cases h : p ≤ q
      · rw [if_pos (by simpa using h)]
        show p :: q :: t.map JSNum.toRat
          = List.orderedInsert (· ≤ ·) p (q :: t.map JSNum.toRat)
        simp only [List.orderedInsert]
        rw [if_pos h]
      · rw [if_neg (by simpa using h)]
        show q :: (insertBy jsortLeB (fin p) t).map JSNum.toRat
          = List.orderedInsert (· ≤ ·) p (q :: t.map JSNum.toRat)
        simp only [List.orderedInsert]
        rw [if_neg h, ih (fun x hx => hl x (List.mem_cons_of_mem _ hx))]

theorem insertionSortBy_map_toRat :
    ∀ l : List JSNum, (∀ x ∈ l, ∃ q, x = fin q) →
      (insertionSortBy jsortLeB l).map JSNum.toRat
        = List.insertionSort (· ≤ ·) (l.map JSNum.toRat) := by
  intro l
  induction l with
  | nil => intro _; rfl
  | cons a t ih =>
      intro hl
      rcases hl a (List.mem_cons_self a t) with ⟨p, rfl⟩
      have hallt : ∀ x ∈ t, ∃ q, x = fin q :=
        fun x hx => hl x (List.mem_cons_of_mem _ hx)
      have hsortfin : ∀ x ∈ insertionSortBy jsortLeB t, ∃ q, x = fin q :=
        fun x hx => hallt x ((insertionSortBy_perm jsortLeB t).mem_iff.1 hx)
      show (insertBy jsortLeB (fin p) (insertionSortBy jsortLeB t)).map JSNum.toRat
        = List.orderedInsert (· ≤ ·) p (List.insertionSort (· ≤ ·) (t.map JSNum.toRat))
      rw [insertBy_map_toRat p _ hsortfin, ih hallt]

theorem getD_map_toRat {l : List JSNum} {n : ℕ} (h : n < l.length) :
    (l.map JSNum.toRat).getD n 0 = JSNum.toRat (l.get ⟨n, h⟩) := by
  rw [List.getD_eq_get?, List.get?_map, List.get?_eq_get h]
  rfl

theorem listGetJS_in {l : List JSNum} {i : ℤ} (h0 : 0 ≤ i) (h1 : i.toNat < l.length) :
    listGetJS l i = l.get ⟨i.toNat, h1⟩ := dif_pos ⟨h0, h1⟩

/-- C5: the returned alpha of the two-parameter fitter equals the
gradient-descent alpha plus the element of the ascending-sorted log-space
residuals at the index min(max(ceil(tau * N) - 1, 0), N - 1) stated by the
specification, and beta is returned unchanged.  The ascending-sorted
residuals are presented as any sorted permutation sortedQ of the residual
values (unique since the order on ℚ is antisymmetric); the hypotheses ask
for finite residuals, which is what makes ascending order meaningful. -/
theorem claim5_intercept_shift (F : FloatOps) (dates : List (Option ℤ)) (prices : List JSNum)
    (tau : ℚ) (options : LLOptions) (sortedQ : List ℚ)
    (hfin : ∀ r ∈ llResiduals (llSamples F dates prices options.epsilon)
        (llGDState F dates prices tau options).alpha
        (llGDState F dates prices tau options).beta, r.isFinite = true)
    (hperm : sortedQ.Perm ((llResiduals (llSamples F dates prices options.epsilon)
        (llGDState F dates prices tau options).alpha
        (llGDState F dates prices tau options).beta).map JSNum.toRat))
    (hsorted : sortedQ.Sorted (· ≤ ·))
    (hn : 0 < dates.length) :
    (fitLogLogQuantileRegression F dates prices tau options).alpha
      = jadd (llGDState F dates prices tau options).alpha
          (fin (sortedQ.getD (specQuantileIndex tau dates.length).toNat 0))
    ∧ (fitLogLogQuantileRegression F dates prices tau options).beta
      = (llGDState F dates prices tau options).beta := by
  have halpha : (fitLogLogQuantileRegression F dates prices tau options).alpha
      = jadd (llGDState F dates prices tau options).alpha
          (listGetJS (insertionSortBy jsortLeB
              (llResiduals (llSamples F dates prices options.epsilon)
                (llGDState F dates prices tau options).alpha
                (llGDState F dates prices tau options).beta))
            (min (max (⌈qmul tau (((insertionSortBy jsortLeB
                (llResiduals (llSamples F dates prices options.epsilon)
                  (llGDState F dates prices tau options).alpha
                  (llGDState F dates prices tau options).beta)).length : ℚ))⌉ - 1) 0)
              (((insertionSortBy jsortLeB
                (llResiduals (llSamples F dates prices options.epsilon)
                  (llGDState F dates prices tau options).alpha
                  (llGDState F dates prices tau options).beta)).length : ℤ) - 1))) := rfl
  have hbeta : (fitLogLogQuantileRegression F dates prices tau options).beta
      = (llGDState F dates prices tau options).beta := rfl
  have hRfin : ∀ x ∈ llResiduals (llSamples F dates prices options.epsilon)
      (llGDState F dates prices tau options).alpha
      (llGDState F dates prices tau options).beta, ∃ q, x = fin q :=
    fun x hx => isFinite_iff.1 (hfin x hx)
  have hlenR : (llResiduals (llSamples F dates prices options.epsilon)
      (llGDState F dates prices tau options).alpha
      (llGDState F dates prices tau options).beta).length = dates.length := by
    unfold llResiduals llSamples
    rw [List.length_map, length_mapWithIndex]
  have hlenS : (insertionSortBy jsortLeB
      (llResiduals (llSamples F dates prices options.epsilon)
        (llGDState F dates prices tau options).alpha
        (llGDState F dates prices tau options).beta)).length = dates.length := by
    rw [(insertionSortBy_perm jsortLeB _).length_eq, hlenR]
  have hidx0 : 0 ≤ specQuantileIndex tau dates.length := by
    unfold specQuantileIndex
    apply le_min (le_max_right _ _)
    omega
  have hidxlt : (specQuantileIndex tau dates.length).toNat < dates.length := by
    have hle : specQuantileIndex tau dates.length ≤ (dates.length : ℤ) - 1 :=
      min_le_right _ _
    omega
  have hidxeq : (min (max (⌈qmul tau (((insertionSortBy jsortLeB
      (llResiduals (llSamples F dates prices options.epsilon)
        (llGDState F dates prices tau options).alpha
        (llGDState F dates prices tau options).beta)).length : ℚ))⌉ - 1) 0)
      (((insertionSortBy jsortLeB
        (llResiduals (llSamples F dates prices options.epsilon)
          (llGDState F dates prices tau options).alpha
          (llGDState F dates prices tau options).beta)).length : ℤ) - 1))
      = specQuantileIndex tau dates.length := by
    rw [hlenS]
    rfl
  have hSfin : ∀ x ∈ insertionSortBy jsortLeB
      (llResiduals (llSamples F dates prices options.epsilon)
        (llGDState F dates prices tau options).alpha
        (llGDState F dates prices tau options).beta), ∃ q, x = fin q :=
    fun x hx => hRfin x ((insertionSortBy_perm jsortLeB _).mem_iff.1 hx)
  have hsortlt : (specQuantileIndex tau dates.length).toNat
      < (insertionSortBy jsortLeB
        (llResiduals (llSamples F dates prices options.epsilon)
          (llGDState F dates prices tau options).alpha
          (llGDState F dates prices tau options).beta)).length := by
    rw [hlenS]; exact hidxlt
  have hsq : sortedQ = List.insertionSort (· ≤ ·)
      ((llResiduals (llSamples F dates prices options.epsilon)
        (llGDState F dates prices tau options).alpha
        (llGDState F dates prices tau options).beta).map JSNum.toRat) := by
    apply List.eq_of_perm_of_sorted
      (hperm.trans (List.perm_insertionSort (· ≤ ·) _).symm) hsorted
    exact List.sorted_insertionSort (· ≤ ·) _
  have helem : listGetJS (insertionSortBy jsortLeB
      (llResiduals (llSamples F dates prices options.epsilon)
        (llGDState F dates prices tau options).alpha
        (llGDState F dates prices tau options).beta))
      (specQuantileIndex tau dates.length)
      = fin (sortedQ.getD (specQuantileIndex tau dates.length).toNat 0) := by
    rw [listGetJS_in hidx0 hsortlt]
    rcases hSfin _ (List.get_mem _ _ _) with ⟨q, hq⟩
    rw [hq]
    have htr : JSNum.toRat (List.get _ ⟨(specQuantileIndex tau dates.length).toNat,
        hsortlt⟩) = q := by rw [hq]; rfl
    rw [← htr, ← getD_map_toRat hsortlt,
      insertionSortBy_map_toRat _ hRfin, ← hsq]
  rw [halpha, hbeta, hidxeq, helem]
  exact ⟨rfl, rfl⟩

/-- C5 witness: one sample at the genesis date with price 1, an
unseeded quantile and zero iterations: the residual list is [0], and the
returned alpha is the gradient-descent alpha shifted by its 25%-quantile
element. -/
theorem claim5_witness :
    (fitLogLogQuantileRegression constFloatOps [some 14247] [fin 1] (mkRat 1 4)
        { iterations := 0, learningRate := mkRat 1 50, epsilon := mkRat 1 1000000000 }).alpha
      = jadd (llGDState constFloatOps [some 14247] [fin 1] (mkRat 1 4)
          { iterations := 0, learningRate := mkRat 1 50, epsilon := mkRat 1 1000000000 }).alpha
        (fin (([0] : List ℚ).getD (specQuantileIndex (mkRat 1 4) 1).toNat 0))
    ∧ (fitLogLogQuantileRegression constFloatOps [some 14247] [fin 1] (mkRat 1 4)
        { iterations := 0, learningRate := mkRat 1 50, epsilon := mkRat 1 1000000000 }).beta
      = (llGDState constFloatOps [some 14247] [fin 1] (mkRat 1 4)
          { iterations := 0, learningRate := mkRat 1 50, epsilon := mkRat 1 1000000000 }).beta :=
  claim5_intercept_shift constFloatOps [some 14247] [fin 1] (mkRat 1 4)
    { iterations := 0, learningRate := mkRat 1 50, epsilon := mkRat 1 1000000000 }
    [0] (by decide) (List.Perm.refl _) (List.sorted_singleton 0) (by decide)

theorem nullCoalesce_of_isSome {a b : Option α} (h : a.isSome = true) :
    nullCoalesce a b = a := by
  cases a with
  | none => simp at h
  | some v => rfl

theorem attachGo_length (F : FloatOps) (sorted : List PriceRow)
    (q1 q2 q3 q4 q5 q6 : PLFit) :
    ∀ (l : List PriceRow) (i : ℕ) (s1 s2 s3 s4 s5 s6 : ℚ),
      (attachGo F sorted q1 q2 q3 q4 q5 q6 i s1 s2 s3 s4 s5 s6 l).length = l.length := by
  intro l
  induction l with
  | nil => intro i s1 s2 s3 s4 s5 s6; rfl
  | cons row rest ih =>
      intro i s1 s2 s3 s4 s5 s6
      show (_ :: _).length = (row :: rest).length
      simp only [List.length_cons]
      rw [ih]

theorem attachGo_preserved (F : FloatOps) (sorted : List PriceRow)
    (q1 q2 q3 q4 q5 q6 : PLFit) :
    ∀ (l : List PriceRow) (i : ℕ) (s1 s2 s3 s4 s5 s6 : ℚ) (k : ℕ) (r : PriceRow),
      l.get? k = some r →
      ∃ o, (attachGo F sorted q1 q2 q3 q4 q5 q6 i s1 s2 s3 s4 s5 s6 l).get? k = some o
        ∧ rowPreserved r o := by
  intro l
  induction l with
  | nil => intro i s1 s2 s3 s4 s5 s6 k r h; simp at h
  | cons row rest ih =>
      intro i s1 s2 s3 s4 s5 s6 k r h
      cases k with
      | zero =>
          have hr : row = r := by
            have := h
            simp only [List.get?] at this
            exact Option.some.inj this
          subst hr
          refine ⟨_, rfl, ?_⟩
          unfold rowPreserved
          refine ⟨rfl, rfl, rfl, ?_, ?_, ?_, ?_, ?_, ?_, ?_, ?_, ?_, ?_, ?_, ?_, ?_, ?_, ?_, ?_⟩
          all_goals intro h2
          all_goals exact nullCoalesce_of_isSome h2
      | succ k2 =>
          have hrest : rest.get? k2 = some r := h
          exact ih (i + 1) _ _ _ _ _ _ k2 r hrest

/-- C8: the series assembler is a fill-if-absent merge: for every
input row (the sort of the rows is a permutation, and output row k
corresponds to sorted input row k), every indicator column that carries a
non-null stored value is carried to the output unchanged, a freshly
computed value being used only when the stored cell is null, and the date
and the two close columns are never modified. -/
theorem claim8_fill_if_absent (F : FloatOps) (rows : List PriceRow) :
    (sortRowsByDate rows).Perm rows
    ∧ (attachCalculatedMovingAverages F rows).length = (sortRowsByDate rows).length
    ∧ (∀ (k : ℕ) (r : PriceRow), (sortRowsByDate rows).get? k = some r →
        ∃ o, (attachCalculatedMovingAverages F rows).get? k = some o ∧ rowPreserved r o) := by
  have hatt : attachCalculatedMovingAverages F rows
      = attachGo F (sortRowsByDate rows)
          (fitPowerLawQuantileRegression F ((sortRowsByDate rows).map PriceRow.date)
            ((sortRowsByDate rows).map fun r => fin r.closeEur) (mkRat 1 100) plDefaultOptions)
          (fitPowerLawQuantileRegression F ((sortRowsByDate rows).map PriceRow.date)
            ((sortRowsByDate rows).map fun r => fin r.closeEur) (mkRat 1 2) plDefaultOptions)
          (fitPowerLawQuantileRegression F ((sortRowsByDate rows).map PriceRow.date)
            ((sortRowsByDate rows).map fun r => fin r.closeEur) (mkRat 99 100) plDefaultOptions)
          (fitPowerLawQuantileRegression F ((sortRowsByDate rows).map PriceRow.date)
            ((sortRowsByDate rows).map fun r => fin r.closeUsd) (mkRat 1 100) plDefaultOptions)
          (fitPowerLawQuantileRegression F ((sortRowsByDate rows).map PriceRow.date)
            ((sortRowsByDate rows).map fun r => fin r.closeUsd) (mkRat 1 2) plDefaultOptions)
          (fitPowerLawQuantileRegression F ((sortRowsByDate rows).map PriceRow.date)
            ((sortRowsByDate rows).map fun r => fin r.closeUsd) (mkRat 99 100) plDefaultOptions)
          0 0 0 0 0 0 0 (sortRowsByDate rows) := rfl
  refine ⟨insertionSortBy_perm _ rows, ?_, ?_⟩
  · rw [hatt, attachGo_length]
  · intro k r h
    rw [hatt]
    exact attachGo_preserved F (sortRowsByDate rows) _ _ _ _ _ _
      (sortRowsByDate rows) 0 0 0 0 0 0 0 k r h

/-- C8 witness: a concrete row with stored cells for sma50dEur,
sma200wEur and powerLawQ01Eur passes through the assembler with those
cells preserved. -/
theorem claim8_witness :
    (sortRowsByDate [sampleStoredRow]).get? 0 = some sampleStoredRow
    ∧ ∃ o, (attachCalculatedMovingAverages constFloatOps [sampleStoredRow]).get? 0 = some o
        ∧ rowPreserved sampleStoredRow o :=
  ⟨by decide,
    (claim8_fill_if_absent constFloatOps [sampleStoredRow]).2.2 0 sampleStoredRow (by decide)⟩
